import Mathlib

set_option maxHeartbeats 1000000

/-!
Shallow embedding of the task-analyzer scoring engine
(`src/tasks/scoring.py`) and proofs about the claims of its
specification.

Modelling conventions:
* Python floats are modelled as exact rationals (`ℚ`); `round(x, n)` is
  modelled as exact round-half-to-even on rationals.
* JSON scalar values (`null`, booleans, numbers, strings) are modelled by
  `Value`; a raw record field is either a scalar or a one-level list
  (`RawField`).  Unhashable identifiers (lists/dicts used as ids), which
  would make the Python program raise `TypeError`, are treated as opaque
  ordinary values by the assoc-list dictionaries used here.
* Python `dict`s are modelled as association lists preserving insertion
  order (which Python dictionaries guarantee); `set`s are lists used up to
  membership.
* Dates are modelled by their proleptic-Gregorian day number (`Int`);
  `date.isoformat` followed by `_parse_date` round-trips, so the ranker's
  re-parse of the serialized due date is modelled by reusing the stored
  day number.  The ambient `date.today()` clock is passed explicitly as a
  `today : Int` parameter.
* The recursive depth-first search of `_detect_cycles` is modelled with a
  fuel parameter; the fuel chosen in `_detect_cycles` is large enough that
  it is never exhausted (each level of recursion depth permanently visits
  a fresh node).
-/

/-- A JSON scalar value. -/
inductive Value where
  | null : Value
  | bool (b : Bool) : Value
  | int (n : Int) : Value
  | num (q : ℚ) : Value
  | str (s : String) : Value
deriving DecidableEq

/-- A raw record field: a scalar or a (one-level) list of scalars. -/
inductive RawField where
  | scalar (v : Value) : RawField
  | list (l : List Value) : RawField
deriving DecidableEq

/-- An entry of the raw input collection: a record (dict) or anything else. -/
inductive RawEntry where
  | record (fields : List (String × RawField)) : RawEntry
  | nonRecord (v : RawField) : RawEntry
deriving DecidableEq

/-- The normalized task representation (dataclass `TaskInput`). -/
structure TaskInput where
  id : RawField
  title : String
  due_date : Option Int
  estimated_hours : Option ℚ
  importance : Option Int
  dependencies : List Value
deriving DecidableEq

/-- An output record of `rank_tasks` (normalized fields plus score and
rationale). -/
structure ScoredTask where
  id : RawField
  title : String
  due_date : Option Int
  estimated_hours : Option ℚ
  importance : Option Int
  dependencies : List Value
  score : ℚ
  explanation : String
deriving DecidableEq

/-- `StrategyError` (scoring.py line 8). -/
structure StrategyError where
  message : String
deriving DecidableEq

/-- Python truthiness of a scalar. -/
def pyTruthy : Value → Bool
  | .null => false
  | .bool b => b
  | .int n => n != 0
  | .num q => q != 0
  | .str s => s != ""

/-- Python truthiness of a raw field. -/
def pyTruthyField : RawField → Bool
  | .scalar v => pyTruthy v
  | .list l => !l.isEmpty

/-- Python `str()` on a scalar (float repr is approximated for
non-integral rationals; no claim depends on it). -/
def pyStrValue : Value → String
  | .null => "None"
  | .bool b => if b then "True" else "False"
  | .int n => toString n
  | .num q => if q.den = 1 then toString q.num ++ ".0" else toString q
  | .str s => s

/-- Python `repr()` on a scalar (used by `str` on lists). -/
def pyReprValue : Value → String
  | .str s => "'" ++ s ++ "'"
  | v => pyStrValue v

/-- Python `str()` on a raw field. -/
def pyStrField : RawField → String
  | .scalar v => pyStrValue v
  | .list l => "[" ++ String.intercalate ", " (l.map pyReprValue) ++ "]"

/-- `dict.get`: last occurrence wins, matching `json.loads` duplicate-key
semantics. -/
def fieldGet (fields : List (String × RawField)) (k : String) : Option RawField :=
  (fields.reverse.find? (fun p => p.1 == k)).map (fun p => p.2)

/-- All characters are decimal digits and the string is nonempty. -/
def allDigits (s : String) : Bool :=
  s.length != 0 && s.all (fun c => c.isDigit)

/-- Digits-only string to `Nat`. -/
def parseNatDigits (s : String) : Nat :=
  s.foldl (fun n c => n * 10 + (c.toNat - 48)) 0

/-- Python `int(str)` restricted to an optional sign and digits. -/
def parseIntString (s : String) : Option Int :=
  if s.startsWith "-" then
    if allDigits (s.drop 1) then some (-(parseNatDigits (s.drop 1) : Int)) else none
  else if s.startsWith "+" then
    if allDigits (s.drop 1) then some (parseNatDigits (s.drop 1) : Int) else none
  else if allDigits s then some (parseNatDigits s : Int) else none

/-- Python `float(str)` restricted to sign, digits and a decimal point
(scientific notation and surrounding whitespace are outside the modelled
input domain). -/
def parseFloatString (s : String) : Option ℚ :=
  let sign : ℚ := if s.startsWith "-" then -1 else 1
  let rest := if s.startsWith "-" || s.startsWith "+" then s.drop 1 else s
  match rest.splitOn "." with
  | [a] => if allDigits a then some (sign * (parseNatDigits a : ℚ)) else none
  | [a, b] =>
    if a.all (fun c => c.isDigit) ∧ b.all (fun c => c.isDigit) ∧ (a ≠ "" ∨ b ≠ "") then
      some (sign * ((parseNatDigits a : ℚ) + (parseNatDigits b : ℚ) / (10 : ℚ) ^ b.length))
    else none
  | _ => none

/-- Truncation of a rational toward zero, as Python `int(float)`. -/
def ratTrunc (q : ℚ) : Int :=
  if q < 0 then -((-q).floor) else q.floor

/-- Python `int(x)` over a scalar (`int(True) = 1`; failures are `none`). -/
def pyInt : Value → Option Int
  | .null => none
  | .bool b => some (if b then 1 else 0)
  | .int n => some n
  | .num q => some (ratTrunc q)
  | .str s => parseIntString s

/-- Python `float(x)` over a scalar (failures are `none`). -/
def pyFloat : Value → Option ℚ
  | .null => none
  | .bool b => some (if b then 1 else 0)
  | .int n => some (n : ℚ)
  | .num q => some q
  | .str s => parseFloatString s

/-- Gregorian leap year. -/
def isLeap (y : Nat) : Bool :=
  y % 4 == 0 && (y % 100 != 0 || y % 400 == 0)

/-- Days in a month. -/
def daysInMonth (y m : Nat) : Nat :=
  if m = 2 then (if isLeap y then 29 else 28)
  else if m = 4 ∨ m = 6 ∨ m = 9 ∨ m = 11 then 30
  else 31

/-- Proleptic-Gregorian day number of a calendar date (days since
1970-01-01, Howard Hinnant's days-from-civil; callers guarantee y ≥ 1). -/
def civilToDay (y m d : Nat) : Int :=
  let yi : Int := if m ≤ 2 then (y : Int) - 1 else (y : Int)
  let mp : Int := if m ≤ 2 then (m : Int) + 9 else (m : Int) - 3
  let era : Int := yi / 400
  let yoe : Int := yi - era * 400
  let doy : Int := (153 * mp + 2) / 5 + (d : Int) - 1
  let doe : Int := yoe * 365 + yoe / 4 - yoe / 100 + doy
  era * 146097 + doe - 719468

/-- `datetime.strptime(s, "%Y-%m-%d").date()`: four-digit year, one or two
digit month and day, calendar-validated. -/
def parseDateString (s : String) : Option Int :=
  match s.splitOn "-" with
  | [ys, ms, ds] =>
    if allDigits ys = true ∧ ys.length = 4 ∧ allDigits ms = true ∧ ms.length ≤ 2 ∧
        allDigits ds = true ∧ ds.length ≤ 2 then
      let y := parseNatDigits ys
      let m := parseNatDigits ms
      let d := parseNatDigits ds
      if 1 ≤ y ∧ 1 ≤ m ∧ m ≤ 12 ∧ 1 ≤ d ∧ d ≤ daysInMonth y m then
        some (civilToDay y m d)
      else none
    else none
  | _ => none

/-- `_parse_date` (scoring.py lines 22-30) applied to a raw field. -/
def parse_date : Option RawField → Option Int
  | none => none
  | some f => if pyTruthyField f then parseDateString (pyStrField f) else none

/-- `_clamp` (scoring.py lines 33-34). -/
def _clamp (value min_value max_value : ℚ) : ℚ :=
  max min_value (min max_value value)

/-- Round-half-to-even to an integer (Python `round` on exact values). -/
def roundHalfEven (x : ℚ) : Int :=
  let f := x.floor
  let r := x - (f : ℚ)
  if r < 1/2 then f
  else if 1/2 < r then f + 1
  else if f % 2 = 0 then f else f + 1

/-- Python `round(x, nd)` on exact rationals. -/
def pyRound (x : ℚ) (nd : Nat) : ℚ :=
  (roundHalfEven (x * (10 : ℚ) ^ nd) : ℚ) / (10 : ℚ) ^ nd

/-- Python format `:.ndf` (fixed-point formatting). -/
def fmtFixed (nd : Nat) (q : ℚ) : String :=
  let scaled := roundHalfEven (q * (10 : ℚ) ^ nd)
  let sign := if scaled < 0 then "-" else ""
  let a := scaled.natAbs
  if nd = 0 then sign ++ toString a
  else
    let ip := a / 10 ^ nd
    let fp := a % 10 ^ nd
    let fs := toString fp
    let fs := String.mk (List.replicate (nd - fs.length) '0') ++ fs
    sign ++ toString ip ++ "." ++ fs

/-- `_urgency_score` (scoring.py lines 37-52); the reference clock is the
explicit `today` parameter. -/
def _urgency_score (due : Option Int) (today : Int) : ℚ × String :=
  match due with
  | none => (50, "no due date (neutral urgency)")
  | some due =>
    let delta_days : Int := due - today
    if delta_days < 0 then (100, "overdue by " ++ toString (-delta_days) ++ " day(s)")
    else if delta_days = 0 then (95, "due today")
    else if delta_days ≤ 30 then
      (30 + ((30 : ℚ) - (delta_days : ℚ)) * ((60 : ℚ) / 30),
        "due in " ++ toString delta_days ++ " day(s)")
    else (20, "due in " ++ toString delta_days ++ " day(s) (low urgency)")

/-- `_importance_score` (scoring.py lines 55-60). -/
def _importance_score (importance : Option Int) : ℚ × String :=
  match importance with
  | none => (50, "importance not specified (neutral)")
  | some imp0 =>
    let imp := _clamp (imp0 : ℚ) 1 10
    (imp / 10 * 100, "importance " ++ fmtFixed 0 imp ++ "/10")

/-- `_effort_score` (scoring.py lines 63-78). -/
def _effort_score (hours : Option ℚ) : ℚ × String :=
  match hours with
  | none => (50, "effort unknown (neutral)")
  | some hours =>
    let h := max 0 hours
    if h = 0 then (100, "trivial effort")
    else if h ≤ 1 then (95, "very low effort (" ++ fmtFixed 1 h ++ "h)")
    else if h ≤ 4 then
      (95 - (h - 1) * ((35 : ℚ) / 3), "moderate effort (" ++ fmtFixed 1 h ++ "h)")
    else if h ≤ 8 then
      (60 - (h - 4) * ((30 : ℚ) / 4), "high effort (" ++ fmtFixed 1 h ++ "h)")
    else (20, "very high effort (" ++ fmtFixed 1 h ++ "h)")

/-- The dependency graph: an insertion-ordered association list from task
id to adjacency list. -/
abbrev Graph := List (RawField × List RawField)

/-- The keys of the graph, in insertion order. -/
def graphKeys (g : Graph) : List RawField := g.map (fun p => p.1)

/-- `dict.setdefault(k, [])` on the graph. -/
def setdefaultG (g : Graph) (k : RawField) : Graph :=
  if k ∈ graphKeys g then g else g ++ [(k, [])]

/-- `dict.setdefault(k, 0)` on the dependents counter. -/
def setdefaultC (c : List (RawField × Nat)) (k : RawField) : List (RawField × Nat) :=
  if k ∈ c.map (fun p => p.1) then c else c ++ [(k, 0)]

/-- `dependents_count[dep] = dependents_count.get(dep, 0) + 1` for a key
that is present (the builder guarantees presence). -/
def incrC (c : List (RawField × Nat)) (k : RawField) : List (RawField × Nat) :=
  c.map (fun p => if p.1 = k then (p.1, p.2 + 1) else p)

/-- `graph[k] = v` for a key that is present. -/
def updateG (g : Graph) (k : RawField) (v : List RawField) : Graph :=
  g.map (fun p => if p.1 = k then (k, v) else p)

/-- `graph.get(n, [])`. -/
def neighborsOf (g : Graph) (n : RawField) : List RawField :=
  match g with
  | [] => []
  | (k, vs) :: rest => if k = n then vs else neighborsOf rest n

/-- `dependents_count.get(k, 0)`. -/
def countGet (c : List (RawField × Nat)) (k : RawField) : Nat :=
  match c with
  | [] => 0
  | (k', v) :: rest => if k' = k then v else countGet rest k

/-- The first loop of `_build_graph` (scoring.py lines 85-89): register
every non-null task id with an empty adjacency list and a zero dependents
counter. -/
def buildInit (gc : Graph × List (RawField × Nat)) (t : TaskInput) :
    Graph × List (RawField × Nat) :=
  if t.id = .scalar .null then gc
  else (setdefaultG gc.1 t.id, setdefaultC gc.2 t.id)

/-- The second loop of `_build_graph` (scoring.py lines 91-99): keep the
dependencies whose target is a known node, count each kept occurrence,
and store the filtered adjacency list. -/
def buildStep (gc : Graph × List (RawField × Nat)) (t : TaskInput) :
    Graph × List (RawField × Nat) :=
  if t.id = .scalar .null then gc
  else
    let deps := t.dependencies.filter (fun dep => RawField.scalar dep ∈ graphKeys gc.1)
    let counts := deps.foldl (fun c dep => incrC c (.scalar dep)) gc.2
    (updateG gc.1 t.id (deps.map RawField.scalar), counts)

/-- `_build_graph` (scoring.py lines 81-101). -/
def _build_graph (tasks : List TaskInput) : Graph × List (RawField × Nat) :=
  tasks.foldl buildStep (tasks.foldl buildInit ([], []))

/-- The mutable state of `_detect_cycles`' depth-first search. -/
structure St where
  visited : List RawField
  stack : List RawField
  inCycle : List RawField
deriving DecidableEq

/-- The initial DFS state. -/
def initSt : St := ⟨[], [], []⟩

/-- Fuel that can never be exhausted: one more than the number of values
occurring in the graph (each level of recursion depth permanently marks a
fresh value visited). -/
def cycleFuel (g : Graph) : Nat :=
  g.length + (g.map (fun p => p.2.length)).sum + 1

/-- `visit` (scoring.py lines 109-119), with explicit fuel standing in for
the recursion. -/
def visit (g : Graph) (fuel : Nat) (node : RawField) (s : St) : St :=
  match fuel with
  | 0 => s
  | f + 1 =>
    if node ∈ s.stack then { s with inCycle := s.stack ++ s.inCycle }
    else if node ∈ s.visited then s
    else
      let s1 : St := { visited := node :: s.visited, stack := node :: s.stack,
                       inCycle := s.inCycle }
      let s2 := (neighborsOf g node).foldl (fun acc m => visit g f m acc) s1
      { s2 with stack := s2.stack.erase node }

/-- Folding `visit` over a list of nodes (the loop over neighbors). -/
def visitMany (g : Graph) (fuel : Nat) (l : List RawField) (s : St) : St :=
  l.foldl (fun acc m => visit g fuel m acc) s

/-- `_detect_cycles` (scoring.py lines 104-124). -/
def _detect_cycles (g : Graph) : List RawField :=
  ((graphKeys g).foldl
    (fun s node => if node ∈ s.visited then s else visit g (cycleFuel g) node s)
    initSt).inCycle

/-- `_dependency_score` (scoring.py lines 127-141). -/
def _dependency_score (task : TaskInput) (dependents_count : List (RawField × Nat))
    (in_cycle : List RawField) : ℚ × String :=
  if task.id = .scalar .null then (40, "no explicit ID (dependency impact limited)")
  else
    let dependents := countGet dependents_count task.id
    let base := 40 + min ((dependents : ℚ) * 15) 45
    let note :=
      if dependents ≠ 0 then "unblocks " ++ toString dependents ++ " other task(s)"
      else "no tasks directly depend on this"
    if task.id ∈ in_cycle then
      (base * ((75 : ℚ) / 100), note ++ ", part of a circular dependency (penalised)")
    else (base, note)

/-- `_compute_score_for_strategy` (scoring.py lines 144-162); the raised
`StrategyError` is modelled by the `Except` error. -/
def _compute_score_for_strategy (urgency importance effort dependency : ℚ)
    (strategy : String) : Except StrategyError ℚ :=
  let strategy := if strategy = "" then "smart_balance" else strategy
  if strategy = "fastest_wins" then
    .ok ((60 : ℚ) / 100 * effort + 25 / 100 * importance + 15 / 100 * urgency)
  else if strategy = "high_impact" then
    .ok ((70 : ℚ) / 100 * importance + 20 / 100 * urgency + 10 / 100 * dependency)
  else if strategy = "deadline_driven" then
    .ok ((70 : ℚ) / 100 * urgency + 20 / 100 * importance + 10 / 100 * dependency)
  else if strategy = "smart_balance" then
    .ok ((35 : ℚ) / 100 * importance + 30 / 100 * urgency + 20 / 100 * dependency +
      15 / 100 * effort)
  else .error ⟨"Unknown strategy: " ++ strategy⟩

/-- The body of `normalise_tasks`' loop for one enumerated entry
(scoring.py lines 167-200); `idx` is the 1-based position in the original
raw sequence, exactly as produced by `enumerate(raw_tasks, start=1)`. -/
def normOne (idx : Nat) : RawEntry → Option TaskInput
  | .nonRecord _ => none
  | .record raw =>
    let task_id : RawField := (fieldGet raw "id").getD (.scalar (.int (idx : Int)))
    let title0 : RawField :=
      match fieldGet raw "title" with
      | some f => if pyTruthyField f then f else .scalar (.str "Untitled task")
      | none => .scalar (.str "Untitled task")
    let title1 := (pyStrField title0).trim
    let title := if title1 = "" then "Untitled task" else title1
    let due_date := parse_date (fieldGet raw "due_date")
    let estimated_hours : Option ℚ :=
      match fieldGet raw "estimated_hours" with
      | none => none
      | some (.scalar .null) => none
      | some (.scalar v) => pyFloat v
      | some (.list _) => none
    let importance : Option Int :=
      match fieldGet raw "importance" with
      | none => none
      | some (.scalar .null) => none
      | some (.scalar v) => pyInt v
      | some (.list _) => none
    let deps : List Value :=
      match fieldGet raw "dependencies" with
      | none => []
      | some f =>
        if pyTruthyField f then
          match f with
          | .scalar (.str s) =>
            (((s.splitOn ",").map String.trim).filter (fun t => t ≠ "")).map Value.str
          | .list l => l
          | .scalar _ => []
        else []
    some { id := task_id, title := title, due_date := due_date,
           estimated_hours := estimated_hours, importance := importance,
           dependencies := deps }

/-- The enumerated loop of `normalise_tasks`: `idx` advances on every raw
entry (also the skipped non-records), as Python's `enumerate` does. -/
def normAux (idx : Nat) : List RawEntry → List TaskInput
  | [] => []
  | e :: es =>
    match normOne idx e with
    | some t => t :: normAux (idx + 1) es
    | none => normAux (idx + 1) es

/-- `normalise_tasks` (scoring.py lines 165-201). -/
def normalise_tasks (raw_tasks : List RawEntry) : List TaskInput :=
  normAux 1 raw_tasks

/-- `sort_key` (scoring.py lines 246-255).  The `or` fallbacks are kept
literally; re-parsing the serialized due date round-trips to the stored
day number. -/
def sort_key (today : Int) (item : ScoredTask) : ℚ × ℚ × ℚ :=
  let score : ℚ := if item.score = 0 then 0 else item.score
  let due_weight : ℚ :=
    match item.due_date with
    | none => 99999
    | some due => ((due - today : Int) : ℚ)
  let importance_val : ℚ :=
    match item.importance with
    | none => 0
    | some v => if v = 0 then 0 else (v : ℚ)
  (-score, due_weight, -importance_val)

/-- Lexicographic order on sort keys (Python tuple comparison). -/
def keyLe (a b : ℚ × ℚ × ℚ) : Prop :=
  a.1 < b.1 ∨ (a.1 = b.1 ∧ (a.2.1 < b.2.1 ∨ (a.2.1 = b.2.1 ∧ a.2.2 ≤ b.2.2)))

instance (a b : ℚ × ℚ × ℚ) : Decidable (keyLe a b) := by
  unfold keyLe
  infer_instance

/-- Stable insertion: the new element goes after every element whose key
is less-or-equal, reproducing the stable ascending sort of `list.sort`. -/
def insertS {α : Type} (key : α → ℚ × ℚ × ℚ) (x : α) : List α → List α
  | [] => [x]
  | y :: ys => if keyLe (key y) (key x) then y :: insertS key x ys else x :: y :: ys

/-- Stable sort by key (observationally `list.sort(key=...)`). -/
def sortS {α : Type} (key : α → ℚ × ℚ × ℚ) (l : List α) : List α :=
  l.foldl (fun acc y => insertS key y acc) []

/-- One iteration of `rank_tasks`' scoring loop (scoring.py lines 212-244). -/
def scoredOne (dependents_count : List (RawField × Nat)) (in_cycle : List RawField)
    (strategy : String) (today : Int) (t : TaskInput) : Except StrategyError ScoredTask :=
  let urgency := _urgency_score t.due_date today
  let importanceS := _importance_score t.importance
  let effort := _effort_score t.estimated_hours
  let dependency := _dependency_score t dependents_count in_cycle
  match _compute_score_for_strategy urgency.1 importanceS.1 effort.1 dependency.1 strategy with
  | .error e => .error e
  | .ok score =>
    .ok { id := t.id, title := t.title, due_date := t.due_date,
          estimated_hours := t.estimated_hours, importance := t.importance,
          dependencies := t.dependencies, score := pyRound score 2,
          explanation :=
            "Urgency: " ++ urgency.2 ++ " (score " ++ fmtFixed 1 urgency.1 ++ ")" ++
            "; " ++ "Importance: " ++ importanceS.2 ++ " (score " ++ fmtFixed 1 importanceS.1 ++ ")" ++
            "; " ++ "Effort: " ++ effort.2 ++ " (score " ++ fmtFixed 1 effort.1 ++ ")" ++
            "; " ++ "Dependencies: " ++ dependency.2 ++ " (score " ++ fmtFixed 1 dependency.1 ++ ")" }

/-- The scoring loop: the first `StrategyError` raised aborts the call. -/
def mapExc (f : TaskInput → Except StrategyError ScoredTask) :
    List TaskInput → Except StrategyError (List ScoredTask)
  | [] => .ok []
  | t :: ts =>
    match f t with
    | .error e => .error e
    | .ok r =>
      match mapExc f ts with
      | .error e => .error e
      | .ok rs => .ok (r :: rs)

/-- `rank_tasks` before sorting (scoring.py lines 204-244). -/
def scoreTasks (raw_tasks : List RawEntry) (strategy : String) (today : Int) :
    Except StrategyError (List ScoredTask) :=
  let tasks := normalise_tasks raw_tasks
  let gc := _build_graph tasks
  let in_cycle := _detect_cycles gc.1
  mapExc (scoredOne gc.2 in_cycle strategy today) tasks

/-- `rank_tasks` (scoring.py lines 204-258). -/
def rank_tasks (raw_tasks : List RawEntry) (strategy : String) (today : Int) :
    Except StrategyError (List ScoredTask) :=
  match scoreTasks raw_tasks strategy today with
  | .error e => .error e
  | .ok results => .ok (sortS (sort_key today) results)

instance {ε α : Type} [DecidableEq ε] [DecidableEq α] : DecidableEq (Except ε α)
  | .error e, .error f =>
    if h : e = f then .isTrue (by rw [h]) else .isFalse (fun hh => h (by cases hh; rfl))
  | .error _, .ok _ => .isFalse (fun h => Except.noConfusion h)
  | .ok _, .error _ => .isFalse (fun h => Except.noConfusion h)
  | .ok a, .ok b =>
    if h : a = b then .isTrue (by rw [h]) else .isFalse (fun hh => h (by cases hh; rfl))

/-- The weight table of the strategy combiner, read off the branches of
`_compute_score_for_strategy`, as `(urgency, importance, effort,
dependency)` weights. -/
def strategyWeights (s : String) : Option (ℚ × ℚ × ℚ × ℚ) :=
  if s = "fastest_wins" then some ((15 : ℚ) / 100, 25 / 100, 60 / 100, 0)
  else if s = "high_impact" then some ((20 : ℚ) / 100, 70 / 100, 0, 10 / 100)
  else if s = "deadline_driven" then some ((70 : ℚ) / 100, 20 / 100, 0, 10 / 100)
  else if s = "smart_balance" then some ((30 : ℚ) / 100, 35 / 100, 15 / 100, 20 / 100)
  else none

/-- A strategy name accepted by the combiner (the four recognized names,
or the empty name which is treated as `smart_balance`). -/
def Recognized (s : String) : Prop :=
  s = "fastest_wins" ∨ s = "high_impact" ∨ s = "deadline_driven" ∨
    s = "smart_balance" ∨ s = ""

/-- The ordering contract of `rank_tasks`: it succeeds, returns a
permutation of the scored (pre-sort) tasks, sorted by the total
lexicographic key order, stably (elements of every fixed key keep their
pre-sort relative order), and deterministically. -/
def RankOk (raw_tasks : List RawEntry) (strategy : String) (today : Int) : Prop :=
  ∃ pre out,
    scoreTasks raw_tasks strategy today = .ok pre ∧
    rank_tasks raw_tasks strategy today = .ok out ∧
    out.Perm pre ∧
    List.Pairwise (fun a b => keyLe (sort_key today a) (sort_key today b)) out ∧
    (∀ k, out.filter (fun t => decide (sort_key today t = k)) =
      pre.filter (fun t => decide (sort_key today t = k))) ∧
    rank_tasks raw_tasks strategy today = rank_tasks raw_tasks strategy today

/-- Modelled from the spec's words for claim C5: the number of *other*
task entries (different id) whose dependency list mentions `k`. -/
def specOtherDependents (tasks : List TaskInput) (k : RawField) : Nat :=
  (tasks.filter
    (fun t => ¬ t.id = k ∧ t.dependencies.any (fun d => decide (RawField.scalar d = k)))).length

/-- Total number of occurrences of `k` across the dependency lists of all
tasks that carry a non-null id. -/
def occCount (tasks : List TaskInput) (k : RawField) : Nat :=
  ((tasks.filter (fun t => ¬ t.id = .scalar .null)).map
    (fun t => (t.dependencies.map RawField.scalar).count k)).sum

/-- The raw input of the spec's kept-record-position example:
`["not a record", {"title": "X"}]`. -/
def c3Example : List RawEntry :=
  [.nonRecord (.scalar (.str "not a record")), .record [("title", .scalar (.str "X"))]]

/-- A raw record that explicitly carries `"id": null`. -/
def c4Example : List RawEntry :=
  [.record [("id", .scalar .null), ("title", .scalar (.str "X"))]]

/-- Task 1 lists task 2 twice in its dependencies; exactly one other task
depends on task 2. -/
def c5Example : List RawEntry :=
  [.record [("id", .scalar (.int 1)), ("dependencies", .list [.int 2, .int 2])],
   .record [("id", .scalar (.int 2))]]

/-- A task whose dependencies mention itself twice (for the C10 witness). -/
def c10Example : List RawEntry :=
  [.record [("id", .scalar (.int 1)), ("dependencies", .list [.int 1, .int 1])]]

/-- Whether a raw entry is a record (survives the normalizer's filter). -/
def isRecordEntry : RawEntry → Bool
  | .record _ => true
  | .nonRecord _ => false

/-- How many of the entries are records. -/
def countRecords (l : List RawEntry) : Nat :=
  (l.filter isRecordEntry).length

/-- The urgency score as a function of the (rational image of the) day
difference `due - today`, read off `_urgency_score`. -/
def urgencyValue (δ : ℚ) : ℚ :=
  if δ < 0 then 100
  else if δ = 0 then 95
  else if δ ≤ 30 then 30 + ((30 : ℚ) - δ) * ((60 : ℚ) / 30)
  else 20

/-- The effort score as a function of the clamped hours, read off
`_effort_score`. -/
def effortValue (h : ℚ) : ℚ :=
  if h = 0 then 100
  else if h ≤ 1 then 95
  else if h ≤ 4 then 95 - (h - 1) * ((35 : ℚ) / 3)
  else if h ≤ 8 then 60 - (h - 4) * ((30 : ℚ) / 4)
  else 20

/-- All values occurring in a graph (keys and neighbor entries). -/
def univOf (g : Graph) : Finset RawField :=
  (graphKeys g ++ (g.map (fun p => p.2)).flatten).toFinset

/-- How many graph values are not yet visited (the fuel budget that a DFS
call can still consume). -/
def freeCount (g : Graph) (s : St) : Nat :=
  ((univOf g).filter (fun x => x ∉ s.visited)).card

/-- Joint invariant of the DFS for a two-cycle between `X` and `Y`: once a
member of the pair has been fully explored (visited and popped), both are
marked as cycle participants. -/
def TwoJ (X Y : RawField) (s : St) : Prop :=
  (X ∈ s.visited → X ∈ s.stack ∨ (X ∈ s.inCycle ∧ Y ∈ s.inCycle)) ∧
  (Y ∈ s.visited → Y ∈ s.stack ∨ (X ∈ s.inCycle ∧ Y ∈ s.inCycle))

/-- Python hashability of a model value: every scalar (null, bool, int,
float, str) is hashable, a list is not — hashing a list raises
`TypeError: unhashable type: 'list'`. -/
def pyHashable : RawField → Bool
  | .scalar _ => true
  | .list _ => false

/-- An exception escaping `rank_tasks`: either the combiner's
`StrategyError`, or the `TypeError` raised by using an unhashable value
as a dict key. -/
inductive PyExc where
  | typeError (message : String) : PyExc
  | strategy (e : StrategyError) : PyExc
deriving DecidableEq

/-- The first loop body of `_build_graph` with its raise point kept:
`graph.setdefault(t.id, [])` (scoring.py line 88) hashes `t.id` and
raises `TypeError` when the id is unhashable. -/
def buildInitE (gc : Graph × List (RawField × Nat)) (t : TaskInput) :
    Except PyExc (Graph × List (RawField × Nat)) :=
  if t.id = .scalar .null then .ok gc
  else if pyHashable t.id then .ok (setdefaultG gc.1 t.id, setdefaultC gc.2 t.id)
  else .error (.typeError "unhashable type: 'list'")

/-- The first loop of `_build_graph` (scoring.py lines 85-89) with
fail-fast `TypeError` propagation. -/
def buildInitAllE : Graph × List (RawField × Nat) → List TaskInput →
    Except PyExc (Graph × List (RawField × Nat))
  | gc, [] => .ok gc
  | gc, t :: ts =>
    match buildInitE gc t with
    | .error e => .error e
    | .ok gc' => buildInitAllE gc' ts

/-- `_build_graph` with the `TypeError` raise point kept.  The second
loop hashes only ids the first loop already hashed successfully, and in
this one-level model every dependency entry is a scalar, hence hashable,
so the second loop's membership tests cannot raise: after a successful
first loop the builder proceeds exactly as `buildStep`. -/
def _build_graphE (tasks : List TaskInput) :
    Except PyExc (Graph × List (RawField × Nat)) :=
  match buildInitAllE ([], []) tasks with
  | .error e => .error e
  | .ok gc0 => .ok (tasks.foldl buildStep gc0)

/-- Embeds the combiner's error into the exception type. -/
def liftStrategy : Except StrategyError (List ScoredTask) → Except PyExc (List ScoredTask)
  | .error e => .error (.strategy e)
  | .ok rs => .ok rs

/-- `rank_tasks` before sorting, with the builder's raise point kept. -/
def scoreTasksE (raw_tasks : List RawEntry) (strategy : String) (today : Int) :
    Except PyExc (List ScoredTask) :=
  match _build_graphE (normalise_tasks raw_tasks) with
  | .error e => .error e
  | .ok gc =>
    liftStrategy
      (mapExc (scoredOne gc.2 (_detect_cycles gc.1) strategy today)
        (normalise_tasks raw_tasks))

/-- `rank_tasks` (scoring.py lines 204-258) with the builder's raise
point kept. -/
def rank_tasksE (raw_tasks : List RawEntry) (strategy : String) (today : Int) :
    Except PyExc (List ScoredTask) :=
  match scoreTasksE raw_tasks strategy today with
  | .error e => .error e
  | .ok results => .ok (sortS (sort_key today) results)

/-- Every non-null id of the list is hashable: on such task lists no
raise point of the builder fires. -/
def HashableIds (tasks : List TaskInput) : Prop :=
  ∀ t ∈ tasks, t.id ≠ .scalar .null → pyHashable t.id = true

/-- A raw input whose single record carries a list-valued (unhashable)
id: `[{"id": [1]}]`. -/
def c1Example : List RawEntry :=
  [.record [("id", .list [.int 1])]]

/-! ## Helper lemmas -/

theorem compute_fastest (u i e d : ℚ) :
    _compute_score_for_strategy u i e d "fastest_wins" =
      .ok ((60 : ℚ) / 100 * e + 25 / 100 * i + 15 / 100 * u) := rfl

theorem compute_high_impact (u i e d : ℚ) :
    _compute_score_for_strategy u i e d "high_impact" =
      .ok ((70 : ℚ) / 100 * i + 20 / 100 * u + 10 / 100 * d) := rfl

theorem compute_deadline (u i e d : ℚ) :
    _compute_score_for_strategy u i e d "deadline_driven" =
      .ok ((70 : ℚ) / 100 * u + 20 / 100 * i + 10 / 100 * d) := rfl

theorem compute_smart (u i e d : ℚ) :
    _compute_score_for_strategy u i e d "smart_balance" =
      .ok ((35 : ℚ) / 100 * i + 30 / 100 * u + 20 / 100 * d + 15 / 100 * e) := rfl

theorem compute_empty_eq_smart (u i e d : ℚ) :
    _compute_score_for_strategy u i e d "" =
      _compute_score_for_strategy u i e d "smart_balance" := rfl

theorem compute_unknown (s : String) (hs : s ≠ "") (h1 : s ≠ "fastest_wins")
    (h2 : s ≠ "high_impact") (h3 : s ≠ "deadline_driven") (h4 : s ≠ "smart_balance")
    (u i e d : ℚ) :
    _compute_score_for_strategy u i e d s = .error ⟨"Unknown strategy: " ++ s⟩ := by
  simp only [_compute_score_for_strategy]
  rw [if_neg hs, if_neg h1, if_neg h2, if_neg h3, if_neg h4]

theorem urgency_some_eq (due today : Int) :
    (_urgency_score (some due) today).1 = urgencyValue ((due - today : Int) : ℚ) := by
  simp only [_urgency_score, urgencyValue,
    show (((due - today : Int) : ℚ) < 0) ↔ due - today < 0 from by exact_mod_cast Iff.rfl,
    show (((due - today : Int) : ℚ) = 0) ↔ due - today = 0 from by exact_mod_cast Iff.rfl,
    show (((due - today : Int) : ℚ) ≤ 30) ↔ due - today ≤ 30 from by exact_mod_cast Iff.rfl]
  split_ifs <;> rfl

theorem urgencyValue_antitone (a b : ℚ) (h : a ≤ b) : urgencyValue b ≤ urgencyValue a := by
  unfold urgencyValue
  rcases lt_trichotomy a 0 with ha | ha | ha <;> rcases lt_trichotomy b 0 with hb | hb | hb <;>
    split_ifs <;> linarith

theorem effort_some_eq (x : ℚ) : (_effort_score (some x)).1 = effortValue (max 0 x) := by
  simp only [_effort_score, effortValue]
  split_ifs <;> rfl

theorem effortValue_antitone (a b : ℚ) (h0 : 0 ≤ a) (h : a ≤ b) : effortValue b ≤ effortValue a := by
  unfold effortValue
  rcases lt_trichotomy a 0 with ha | ha | ha <;> rcases lt_trichotomy b 0 with hb | hb | hb <;>
    split_ifs <;> linarith

theorem mapExc_congr (f g : TaskInput → Except StrategyError ScoredTask)
    (h : ∀ t, f t = g t) : ∀ ts, mapExc f ts = mapExc g ts := by
  intro ts
  induction ts with
  | nil => rfl
  | cons t ts ih => simp only [mapExc, h t, ih]

theorem scoredOne_empty_strategy (counts : List (RawField × Nat)) (cyc : List RawField)
    (today : Int) (t : TaskInput) :
    scoredOne counts cyc "" today t = scoredOne counts cyc "smart_balance" today t := by
  unfold scoredOne
  simp only [compute_empty_eq_smart]

theorem scoreTasks_empty_strategy (raw_tasks : List RawEntry) (today : Int) :
    scoreTasks raw_tasks "" today = scoreTasks raw_tasks "smart_balance" today := by
  unfold scoreTasks
  exact mapExc_congr _ _ (scoredOne_empty_strategy _ _ _) _

/-! ## Claim theorems -/

/-- C2: for each of the four recognized strategies, the combiner's weights
sum to exactly 1, and for factor scores in `[0, 100]` the composite score
it returns lies in `[0, 100]` before rounding. -/
theorem C2_strategy_weights (s : String) (wu wi we wd : ℚ)
    (hw : strategyWeights s = some (wu, wi, we, wd)) :
    wu + wi + we + wd = 1 ∧
    ∀ u i e d : ℚ, 0 ≤ u → u ≤ 100 → 0 ≤ i → i ≤ 100 → 0 ≤ e → e ≤ 100 → 0 ≤ d → d ≤ 100 →
      _compute_score_for_strategy u i e d s = .ok (wu * u + wi * i + we * e + wd * d) ∧
      0 ≤ wu * u + wi * i + we * e + wd * d ∧ wu * u + wi * i + we * e + wd * d ≤ 100 := by
  unfold strategyWeights at hw
  split_ifs at hw with h1 h2 h3 h4
  · cases hw
    subst h1
    refine ⟨by norm_num, ?_⟩
    intro u i e d hu0 hu1 hi0 hi1 he0 he1 hd0 hd1
    refine ⟨?_, by linarith, by linarith⟩
    rw [show (15 : ℚ) / 100 * u + 25 / 100 * i + 60 / 100 * e + 0 * d =
        (60 : ℚ) / 100 * e + 25 / 100 * i + 15 / 100 * u from by ring]
    rfl
  · cases hw
    subst h2
    refine ⟨by norm_num, ?_⟩
    intro u i e d hu0 hu1 hi0 hi1 he0 he1 hd0 hd1
    refine ⟨?_, by linarith, by linarith⟩
    rw [show (20 : ℚ) / 100 * u + 70 / 100 * i + 0 * e + 10 / 100 * d =
        (70 : ℚ) / 100 * i + 20 / 100 * u + 10 / 100 * d from by ring]
    rfl
  · cases hw
    subst h3
    refine ⟨by norm_num, ?_⟩
    intro u i e d hu0 hu1 hi0 hi1 he0 he1 hd0 hd1
    refine ⟨?_, by linarith, by linarith⟩
    rw [show (70 : ℚ) / 100 * u + 20 / 100 * i + 0 * e + 10 / 100 * d =
        (70 : ℚ) / 100 * u + 20 / 100 * i + 10 / 100 * d from by ring]
    rfl
  · cases hw
    subst h4
    refine ⟨by norm_num, ?_⟩
    intro u i e d hu0 hu1 hi0 hi1 he0 he1 hd0 hd1
    refine ⟨?_, by linarith, by linarith⟩
    rw [show (30 : ℚ) / 100 * u + 35 / 100 * i + 15 / 100 * e + 20 / 100 * d =
        (35 : ℚ) / 100 * i + 30 / 100 * u + 20 / 100 * d + 15 / 100 * e from by ring]
    rfl

theorem C2_strategy_weights_witness :
    (30 : ℚ) / 100 + 35 / 100 + 15 / 100 + 20 / 100 = 1 ∧
    (_compute_score_for_strategy 50 60 70 80 "smart_balance" =
        .ok ((30 : ℚ) / 100 * 50 + 35 / 100 * 60 + 15 / 100 * 70 + 20 / 100 * 80) ∧
      0 ≤ (30 : ℚ) / 100 * 50 + 35 / 100 * 60 + 15 / 100 * 70 + 20 / 100 * 80 ∧
      (30 : ℚ) / 100 * 50 + 35 / 100 * 60 + 15 / 100 * 70 + 20 / 100 * 80 ≤ 100) := by
  have h := C2_strategy_weights "smart_balance" ((30 : ℚ) / 100) (35 / 100) (15 / 100)
    (20 / 100) (by
    unfold strategyWeights
    rw [if_neg (by decide), if_neg (by decide), if_neg (by decide), if_pos rfl])
  exact ⟨h.1, h.2 50 60 70 80 (by norm_num) (by norm_num) (by norm_num) (by norm_num)
    (by norm_num) (by norm_num) (by norm_num) (by norm_num)⟩

/-- C7: the urgency score is 50 with no due date, monotonically
non-increasing in the due date (hence in days-until-due), weakly
increasing with more days overdue, equal to `30 + (30 - d) * 2` for
`1 ≤ d ≤ 30` days until due, and flat 20 beyond 30 days. -/
theorem C7_urgency_shape :
    (∀ today : Int, (_urgency_score none today).1 = 50) ∧
    (∀ today due1 due2 : Int, due1 ≤ due2 →
      (_urgency_score (some due2) today).1 ≤ (_urgency_score (some due1) today).1) ∧
    (∀ today due1 due2 : Int, due1 ≤ due2 → due2 < today →
      (_urgency_score (some due2) today).1 ≤ (_urgency_score (some due1) today).1) ∧
    (∀ today d : Int, 1 ≤ d → d ≤ 30 →
      (_urgency_score (some (today + d)) today).1 = 30 + ((30 : ℚ) - (d : ℚ)) * 2) ∧
    (∀ today d : Int, 30 < d → (_urgency_score (some (today + d)) today).1 = 20) := by
  have cast_le : ∀ today due1 due2 : Int, due1 ≤ due2 →
      ((due1 - today : Int) : ℚ) ≤ ((due2 - today : Int) : ℚ) := by
    intro today due1 due2 h
    exact_mod_cast sub_le_sub_right h today
  have simp_delta : ∀ today d : Int, ((today + d - today : Int) : ℚ) = (d : ℚ) := by
    intro today d
    push_cast
    ring
  refine ⟨fun today => by norm_num [_urgency_score], ?_, ?_, ?_, ?_⟩
  · intro today due1 due2 h
    rw [urgency_some_eq, urgency_some_eq]
    exact urgencyValue_antitone _ _ (cast_le today due1 due2 h)
  · intro today due1 due2 h _
    rw [urgency_some_eq, urgency_some_eq]
    exact urgencyValue_antitone _ _ (cast_le today due1 due2 h)
  · intro today d h1 h30
    rw [urgency_some_eq, simp_delta]
    have hq1 : (1 : ℚ) ≤ (d : ℚ) := by exact_mod_cast h1
    have hq30 : (d : ℚ) ≤ 30 := by exact_mod_cast h30
    unfold urgencyValue
    rw [if_neg (by linarith), if_neg (by intro h0; rw [h0] at hq1; linarith), if_pos hq30]
    norm_num
  · intro today d h
    rw [urgency_some_eq, simp_delta]
    have hq : (30 : ℚ) < (d : ℚ) := by exact_mod_cast h
    unfold urgencyValue
    rw [if_neg (by linarith), if_neg (by intro h0; rw [h0] at hq; linarith),
      if_neg (by linarith)]

theorem C7_urgency_shape_witness :
    ((_urgency_score (some 10) 0).1 ≤ (_urgency_score (some 5) 0).1) ∧
    ((_urgency_score (some (-3)) 0).1 ≤ (_urgency_score (some (-7)) 0).1) ∧
    ((_urgency_score (some (0 + 10)) 0).1 = 30 + ((30 : ℚ) - ((10 : Int) : ℚ)) * 2) ∧
    ((_urgency_score (some (0 + 31)) 0).1 = 20) :=
  ⟨C7_urgency_shape.2.1 0 5 10 (by norm_num),
   C7_urgency_shape.2.2.1 0 (-7) (-3) (by norm_num) (by norm_num),
   C7_urgency_shape.2.2.2.1 0 10 (by norm_num) (by norm_num),
   C7_urgency_shape.2.2.2.2 0 31 (by norm_num)⟩

/-- C8: the effort score is monotonically non-increasing in the hours
(clamping included), and follows the exact piecewise shape: 100 at 0
hours (and for clamped negatives), 95 on (0,1], linear 95 → 60 on (1,4],
linear 60 → 30 on (4,8], flat 20 above 8. -/
theorem C8_effort_shape :
    (∀ x1 x2 : ℚ, x1 ≤ x2 → (_effort_score (some x2)).1 ≤ (_effort_score (some x1)).1) ∧
    (∀ x : ℚ, x ≤ 0 → (_effort_score (some x)).1 = 100) ∧
    (∀ x : ℚ, 0 < x → x ≤ 1 → (_effort_score (some x)).1 = 95) ∧
    (∀ x : ℚ, 1 < x → x ≤ 4 → (_effort_score (some x)).1 = 95 - (x - 1) * (35 / 3)) ∧
    (∀ x : ℚ, 4 < x → x ≤ 8 → (_effort_score (some x)).1 = 60 - (x - 4) * (30 / 4)) ∧
    (∀ x : ℚ, 8 < x → (_effort_score (some x)).1 = 20) := by
  refine ⟨?_, ?_, ?_, ?_, ?_, ?_⟩
  · intro x1 x2 h
    rw [effort_some_eq, effort_some_eq]
    exact effortValue_antitone _ _ (le_max_left _ _) (max_le_max (le_refl _) h)
  · intro x hx
    rw [effort_some_eq, max_eq_left hx]
    norm_num [effortValue]
  · intro x h0 h1
    rw [effort_some_eq, max_eq_right (show (0 : ℚ) ≤ x from by linarith)]
    unfold effortValue
    rw [if_neg (show ¬x = 0 from by linarith), if_pos h1]
  · intro x h1 h4
    rw [effort_some_eq, max_eq_right (show (0 : ℚ) ≤ x from by linarith)]
    unfold effortValue
    rw [if_neg (show ¬x = 0 from by linarith), if_neg (show ¬x ≤ 1 from by linarith),
      if_pos h4]
  · intro x h4 h8
    rw [effort_some_eq, max_eq_right (show (0 : ℚ) ≤ x from by linarith)]
    unfold effortValue
    rw [if_neg (show ¬x = 0 from by linarith), if_neg (show ¬x ≤ 1 from by linarith),
      if_neg (show ¬x ≤ 4 from by linarith), if_pos h8]
  · intro x h8
    rw [effort_some_eq, max_eq_right (show (0 : ℚ) ≤ x from by linarith)]
    unfold effortValue
    rw [if_neg (show ¬x = 0 from by linarith), if_neg (show ¬x ≤ 1 from by linarith),
      if_neg (show ¬x ≤ 4 from by linarith), if_neg (show ¬x ≤ 8 from by linarith)]

theorem C8_effort_shape_witness :
    ((_effort_score (some 7)).1 ≤ (_effort_score (some 3)).1) ∧
    ((_effort_score (some (-2 : ℚ))).1 = 100) ∧
    ((_effort_score (some (1/2 : ℚ))).1 = 95) ∧
    ((_effort_score (some 2)).1 = 95 - ((2 : ℚ) - 1) * (35 / 3)) ∧
    ((_effort_score (some 6)).1 = 60 - ((6 : ℚ) - 4) * (30 / 4)) ∧
    ((_effort_score (some 9)).1 = 20) :=
  ⟨C8_effort_shape.1 3 7 (by norm_num),
   C8_effort_shape.2.1 (-2) (by norm_num),
   C8_effort_shape.2.2.1 (1/2) (by norm_num) (by norm_num),
   C8_effort_shape.2.2.2.1 2 (by norm_num) (by norm_num),
   C8_effort_shape.2.2.2.2.1 6 (by norm_num) (by norm_num),
   C8_effort_shape.2.2.2.2.2 9 (by norm_num)⟩

/-- C9: the combiner raises a `StrategyError` whose message contains the
offending name for every unrecognized non-empty strategy, and the empty
strategy name behaves exactly like `smart_balance`, producing the same
scores and ordering from `rank_tasks`. -/
theorem C9_strategy_errors :
    (∀ s : String, s ≠ "" → strategyWeights s = none →
      (∀ u i e d : ℚ,
        _compute_score_for_strategy u i e d s = .error ⟨"Unknown strategy: " ++ s⟩) ∧
      ∃ p q : String, "Unknown strategy: " ++ s = p ++ s ++ q) ∧
    (∀ raw_tasks today,
      rank_tasks raw_tasks "" today = rank_tasks raw_tasks "smart_balance" today) := by
  constructor
  · intro s hs hw
    unfold strategyWeights at hw
    split_ifs at hw with h1 h2 h3 h4
    refine ⟨fun u i e d => compute_unknown s hs h1 h2 h3 h4 u i e d, ?_⟩
    exact ⟨"Unknown strategy: ", "", (String.append_empty _).symm⟩
  · intro raw_tasks today
    unfold rank_tasks
    rw [scoreTasks_empty_strategy]

theorem C9_strategy_errors_witness :
    (_compute_score_for_strategy 1 2 3 4 "bogus" =
      .error ⟨"Unknown strategy: " ++ "bogus"⟩) ∧
    rank_tasks [] "" 0 = rank_tasks [] "smart_balance" 0 :=
  ⟨(C9_strategy_errors.1 "bogus" (by decide) (by decide)).1 1 2 3 4,
   C9_strategy_errors.2 [] 0⟩

/-- C5 counterexample: in `c5Example`, exactly one other task (task 1)
depends on task 2, yet task 2's dependency factor score is 70, above the
claimed bound 40 + min(1*15, 45) = 55, because the duplicated dependency
entry is counted per occurrence. -/
theorem C5_counterexample :
    specOtherDependents (normalise_tasks c5Example) (.scalar (.int 2)) = 1 ∧
    ((normalise_tasks c5Example).get? 1).map
      (fun t => (_dependency_score t (_build_graph (normalise_tasks c5Example)).2
        (_detect_cycles (_build_graph (normalise_tasks c5Example)).1)).1) = some 70 ∧
    ¬ ((70 : ℚ) ≤ 40 + min ((1 : ℚ) * 15) 45) :=
  ⟨by decide, by with_unfolding_all decide, by with_unfolding_all decide⟩

theorem dependency_score_fst (t : TaskInput) (counts : List (RawField × Nat))
    (cyc : List RawField) :
    (_dependency_score t counts cyc).1 =
      if t.id = .scalar .null then 40
      else if t.id ∈ cyc then
        (40 + min ((countGet counts t.id : ℚ) * 15) 45) * ((75 : ℚ) / 100)
      else 40 + min ((countGet counts t.id : ℚ) * 15) 45 := by
  simp only [_dependency_score]
  split_ifs <;> rfl

/-- C5 (amended): the dependency factor score of a task is at most
`40 + min(N*15, 45)` where `N` is the task's dependents-count — the
number of dependency-edge occurrences referencing its id, duplicates and
self-references included — hence at most 85 regardless of fan-out; and a
cycle-participating task scores exactly 0.75 times, and therefore
strictly less than, the same task outside any cycle, all else equal. -/
theorem C5_dependency_score_bounds :
    (∀ (t : TaskInput) (counts : List (RawField × Nat)) (cyc : List RawField),
      (_dependency_score t counts cyc).1 ≤
        40 + min ((countGet counts t.id : ℚ) * 15) 45) ∧
    (∀ (t : TaskInput) (counts : List (RawField × Nat)) (cyc : List RawField),
      (_dependency_score t counts cyc).1 ≤ 85) ∧
    (∀ (t : TaskInput) (counts : List (RawField × Nat)) (cyc : List RawField),
      ¬ t.id = .scalar .null → t.id ∈ cyc →
      (_dependency_score t counts cyc).1 =
        (75 : ℚ) / 100 * (_dependency_score t counts []).1 ∧
      (_dependency_score t counts cyc).1 < (_dependency_score t counts []).1) := by
  have hmin0 : ∀ c : Nat, (0 : ℚ) ≤ min ((c : ℚ) * 15) 45 :=
    fun c => le_min (by positivity) (by norm_num)
  have hmin45 : ∀ c : Nat, min ((c : ℚ) * 15) 45 ≤ 45 := fun c => min_le_right _ _
  refine ⟨?_, ?_, ?_⟩
  · intro t counts cyc
    rw [dependency_score_fst]
    split_ifs
    · linarith [hmin0 (countGet counts t.id)]
    · linarith [hmin0 (countGet counts t.id)]
    · linarith
  · intro t counts cyc
    rw [dependency_score_fst]
    split_ifs
    · norm_num
    · linarith [hmin0 (countGet counts t.id), hmin45 (countGet counts t.id)]
    · linarith [hmin45 (countGet counts t.id)]
  · intro t counts cyc h1 h2
    rw [dependency_score_fst, dependency_score_fst, if_neg h1, if_neg h1, if_pos h2,
      if_neg (List.not_mem_nil t.id)]
    constructor
    · ring
    · linarith [hmin0 (countGet counts t.id)]

theorem C5_dependency_score_bounds_witness :
    (_dependency_score ⟨.scalar (.int 1), "T", none, none, none, []⟩
        [(.scalar (.int 1), 1)] [.scalar (.int 1)]).1 =
      (75 : ℚ) / 100 * (_dependency_score ⟨.scalar (.int 1), "T", none, none, none, []⟩
        [(.scalar (.int 1), 1)] []).1 ∧
    (_dependency_score ⟨.scalar (.int 1), "T", none, none, none, []⟩
        [(.scalar (.int 1), 1)] [.scalar (.int 1)]).1 <
      (_dependency_score ⟨.scalar (.int 1), "T", none, none, none, []⟩
        [(.scalar (.int 1), 1)] []).1 :=
  C5_dependency_score_bounds.2.2 ⟨.scalar (.int 1), "T", none, none, none, []⟩
    [(.scalar (.int 1), 1)] [.scalar (.int 1)] (by decide) (by decide)

theorem normOne_record (idx : Nat) (fs : List (String × RawField)) :
    ∃ t, normOne idx (.record fs) = some t ∧
      t.id = (fieldGet fs "id").getD (.scalar (.int (idx : Int))) ∧
      ¬ t.title = "" := by
  refine ⟨_, rfl, rfl, ?_⟩
  show ¬ (if ((pyStrField _).trim = "") then "Untitled task" else (pyStrField _).trim) = ""
  split_ifs with h
  · decide
  · exact h

theorem normAux_get (raws : List RawEntry) : ∀ (k i : Nat) (fs : List (String × RawField)),
    raws.get? i = some (.record fs) →
    ∃ t, (normAux k raws).get? (countRecords (raws.take i)) = some t ∧
      normOne (k + i) (.record fs) = some t := by
  induction raws with
  | nil => intro k i fs h; simp at h
  | cons e es ih =>
    intro k i fs h
    cases i with
    | zero =>
      rw [List.get?_cons_zero] at h
      cases h
      obtain ⟨t, ht, _, _⟩ := normOne_record k fs
      refine ⟨t, ?_, by simpa using ht⟩
      simp [normAux, countRecords, ht]
    | succ i =>
      rw [List.get?_cons_succ] at h
      obtain ⟨t, ht1, ht2⟩ := ih (k + 1) i fs h
      have harith : k + 1 + i = k + (i + 1) := by omega
      cases e with
      | record fs' =>
        obtain ⟨t', ht', _, _⟩ := normOne_record k fs'
        refine ⟨t, ?_, by rw [← harith]; exact ht2⟩
        simpa [normAux, countRecords, isRecordEntry, ht'] using ht1
      | nonRecord v =>
        refine ⟨t, ?_, by rw [← harith]; exact ht2⟩
        simpa [normAux, normOne, countRecords, isRecordEntry] using ht1

theorem normAux_mem (raws : List RawEntry) : ∀ (k : Nat) (t : TaskInput),
    t ∈ normAux k raws →
    ∃ i fs, raws.get? i = some (.record fs) ∧ normOne (k + i) (.record fs) = some t := by
  induction raws with
  | nil => intro k t h; simp [normAux] at h
  | cons e es ih =>
    intro k t h
    cases e with
    | record fs' =>
      obtain ⟨t', ht', _, _⟩ := normOne_record k fs'
      simp only [normAux, ht'] at h
      rcases List.mem_cons.mp h with h | h
      · subst h
        exact ⟨0, fs', rfl, by simpa using ht'⟩
      · obtain ⟨i, fs, h1, h2⟩ := ih (k + 1) t h
        exact ⟨i + 1, fs, by simpa using h1,
          by rw [show k + (i + 1) = k + 1 + i from by omega]; exact h2⟩
    | nonRecord v =>
      simp only [normAux, normOne] at h
      obtain ⟨i, fs, h1, h2⟩ := ih (k + 1) t h
      exact ⟨i + 1, fs, by simpa using h1,
        by rw [show k + (i + 1) = k + 1 + i from by omega]; exact h2⟩

/-- C3 counterexample: normalizing `["not a record", {"title": "X"}]`
yields exactly one task, whose default id is 2 (its 1-based position in
the original sequence), not 1 (its position among kept records). -/
theorem C3_counterexample :
    (normalise_tasks c3Example).map (fun t => t.id) = [.scalar (.int 2)] ∧
    ¬ (normalise_tasks c3Example).map (fun t => t.id) = [.scalar (.int 1)] :=
  ⟨by decide, by decide⟩

/-- C3 (amended): a kept record with no `id` field is assigned the default
id equal to its 1-based position in the **original** raw sequence, so
skipped non-record entries do advance subsequent default ids; the task
appears in the output at the position given by the number of records
among the earlier entries. -/
theorem C3_default_id_original_position (raws : List RawEntry) (i : Nat)
    (fs : List (String × RawField)) (hget : raws.get? i = some (.record fs))
    (hid : fieldGet fs "id" = none) :
    ∃ t, (normalise_tasks raws).get? (countRecords (raws.take i)) = some t ∧
      t.id = .scalar (.int ((i + 1 : Nat) : Int)) := by
  obtain ⟨t, h1, h2⟩ := normAux_get raws 1 i fs hget
  obtain ⟨t', ht', hid', _⟩ := normOne_record (1 + i) fs
  rw [ht'] at h2
  injection h2 with h2
  subst h2
  refine ⟨t', h1, ?_⟩
  rw [hid', hid]
  show RawField.scalar (.int ((1 + i : Nat) : Int)) = .scalar (.int ((i + 1 : Nat) : Int))
  rw [show ((1 + i : Nat) : Int) = ((i + 1 : Nat) : Int) from by omega]

theorem C3_default_id_original_position_witness :
    ∃ t, (normalise_tasks c3Example).get? (countRecords (c3Example.take 1)) = some t ∧
      t.id = .scalar (.int ((1 + 1 : Nat) : Int)) :=
  C3_default_id_original_position c3Example 1 [("title", .scalar (.str "X"))]
    (by decide) (by decide)

/-- C4 counterexample: a raw record explicitly carrying `"id": null`
normalizes to a task whose id is null, refuting the invariant as claimed. -/
theorem C4_counterexample :
    ¬ (∀ t ∈ normalise_tasks c4Example, ¬ t.id = RawField.scalar Value.null) := by
  decide

/-- C4 (amended): every normalized task has a non-null, non-empty title;
its id is non-null unless the raw record explicitly carried an `id` field
whose value is null (the only way a null id arises). -/
theorem C4_title_nonempty_id_null_source (raws : List RawEntry) (t : TaskInput)
    (ht : t ∈ normalise_tasks raws) :
    ¬ t.title = "" ∧
    (t.id = .scalar .null →
      ∃ i fs, raws.get? i = some (.record fs) ∧
        fieldGet fs "id" = some (.scalar .null)) := by
  obtain ⟨i, fs, h1, h2⟩ := normAux_mem raws 1 t ht
  obtain ⟨t', ht', hid', htitle'⟩ := normOne_record (1 + i) fs
  rw [ht'] at h2
  injection h2 with h2
  subst h2
  refine ⟨htitle', fun hnull => ⟨i, fs, h1, ?_⟩⟩
  rw [hid'] at hnull
  cases hf : fieldGet fs "id" with
  | none =>
    rw [hf] at hnull
    simp only [Option.getD] at hnull
    cases hnull
  | some f =>
    rw [hf] at hnull
    simp only [Option.getD] at hnull
    rw [hnull]

theorem C4_title_nonempty_id_null_source_witness :
    ¬ (⟨.scalar .null, "X", none, none, none, []⟩ : TaskInput).title = "" ∧
    ((⟨.scalar .null, "X", none, none, none, []⟩ : TaskInput).id = .scalar .null →
      ∃ i fs, c4Example.get? i = some (.record fs) ∧
        fieldGet fs "id" = some (.scalar .null)) :=
  C4_title_nonempty_id_null_source c4Example
    ⟨.scalar .null, "X", none, none, none, []⟩ (by with_unfolding_all decide)


theorem updateG_keys (g : Graph) (k : RawField) (v : List RawField) :
    graphKeys (updateG g k v) = graphKeys g := by
  simp only [graphKeys, updateG, List.map_map]
  refine List.map_congr_left fun p _ => ?_
  by_cases h : p.1 = k <;> simp [h]

theorem incrC_keys (c : List (RawField × Nat)) (k : RawField) :
    (incrC c k).map (fun p => p.1) = c.map (fun p => p.1) := by
  simp only [incrC, List.map_map]
  refine List.map_congr_left fun p _ => ?_
  by_cases h : p.1 = k <;> simp [h]

theorem countGet_cons (a : RawField) (b : Nat) (c : List (RawField × Nat)) (k : RawField) :
    countGet ((a, b) :: c) k = if a = k then b else countGet c k := rfl

theorem countGet_incrC_ne (c : List (RawField × Nat)) (k k' : RawField) (h : ¬ k = k') :
    countGet (incrC c k') k = countGet c k := by
  induction c with
  | nil => rfl
  | cons p c ih =>
    obtain ⟨a, b⟩ := p
    show countGet ((if a = k' then (a, b + 1) else (a, b)) :: incrC c k') k = _
    by_cases hak : a = k'
    · rw [if_pos hak, countGet_cons, countGet_cons, ih]
      rw [if_neg (by rw [hak]; exact fun hh => h hh.symm)]
      rw [if_neg (by rw [hak]; exact fun hh => h hh.symm)]
    · rw [if_neg hak, countGet_cons, countGet_cons, ih]

theorem countGet_incrC_self (c : List (RawField × Nat)) (k : RawField)
    (hk : k ∈ c.map (fun p => p.1)) :
    countGet (incrC c k) k = countGet c k + 1 := by
  induction c with
  | nil => simp at hk
  | cons p c ih =>
    obtain ⟨a, b⟩ := p
    show countGet ((if a = k then (a, b + 1) else (a, b)) :: incrC c k) k = _
    by_cases hak : a = k
    · rw [if_pos hak, countGet_cons, countGet_cons, if_pos hak, if_pos hak]
    · rw [if_neg hak, countGet_cons, countGet_cons, if_neg hak, if_neg hak]
      rw [List.map_cons] at hk
      rcases List.mem_cons.mp hk with h | h
      · exact absurd h.symm hak
      · exact ih h

theorem countGet_fold_incr (deps : List Value) (c : List (RawField × Nat)) (k : RawField)
    (hall : ∀ d ∈ deps, RawField.scalar d ∈ c.map (fun p => p.1)) :
    countGet (deps.foldl (fun c dep => incrC c (.scalar dep)) c) k =
      countGet c k + deps.countP (fun d => decide (RawField.scalar d = k)) := by
  induction deps generalizing c with
  | nil => simp
  | cons d ds ih =>
    have hkeys : (incrC c (.scalar d)).map (fun p => p.1) = c.map (fun p => p.1) :=
      incrC_keys c _
    have hall' : ∀ x ∈ ds, RawField.scalar x ∈ (incrC c (.scalar d)).map (fun p => p.1) := by
      intro x hx
      rw [hkeys]
      exact hall x (List.mem_cons_of_mem _ hx)
    show countGet (ds.foldl (fun c dep => incrC c (.scalar dep)) (incrC c (.scalar d))) k = _
    rw [ih _ hall']
    by_cases hdk : RawField.scalar d = k
    · rw [hdk, countGet_incrC_self c k (by rw [← hdk]; exact hall d (List.mem_cons_self d ds))]
      simp [List.countP_cons, hdk]
      omega
    · rw [countGet_incrC_ne c k _ (fun hh => hdk hh.symm)]
      simp [List.countP_cons, hdk]

theorem countP_filter_keys (l : List Value) (K : List RawField) (k : RawField) (hk : k ∈ K) :
    (l.filter (fun dep => decide (RawField.scalar dep ∈ K))).countP
        (fun d => decide (RawField.scalar d = k)) =
      (l.map RawField.scalar).count k := by
  induction l with
  | nil => rfl
  | cons d ds ih =>
    by_cases hdk : RawField.scalar d = k
    · rw [List.map_cons, List.count_cons]
      rw [List.filter_cons, if_pos (by rw [hdk]; simpa using hk)]
      rw [List.countP_cons]
      simp [hdk, ih]
    · rw [List.map_cons, List.count_cons]
      by_cases hmem : RawField.scalar d ∈ K
      · rw [List.filter_cons, if_pos (by simpa using hmem), List.countP_cons]
        simp [hdk, ih]
      · rw [List.filter_cons, if_neg (by simpa using hmem)]
        simp [hdk, ih]

theorem fold_incr_keys (deps : List Value) (c : List (RawField × Nat)) :
    (deps.foldl (fun c dep => incrC c (.scalar dep)) c).map (fun p => p.1) =
      c.map (fun p => p.1) := by
  induction deps generalizing c with
  | nil => rfl
  | cons d ds ih =>
    show (ds.foldl (fun c dep => incrC c (.scalar dep)) (incrC c (.scalar d))).map
        (fun p => p.1) = _
    rw [ih (incrC c (.scalar d)), incrC_keys]

theorem buildStep_graph_keys (gc : Graph × List (RawField × Nat)) (t : TaskInput) :
    graphKeys (buildStep gc t).1 = graphKeys gc.1 := by
  unfold buildStep
  split_ifs
  · rfl
  · exact updateG_keys _ _ _

theorem buildStep_counts_keys (gc : Graph × List (RawField × Nat)) (t : TaskInput) :
    (buildStep gc t).2.map (fun p => p.1) = gc.2.map (fun p => p.1) := by
  unfold buildStep
  split_ifs
  · rfl
  · exact fold_incr_keys _ _

theorem foldl_buildStep_graph_keys (tasks : List TaskInput)
    (gc : Graph × List (RawField × Nat)) :
    graphKeys (tasks.foldl buildStep gc).1 = graphKeys gc.1 := by
  induction tasks generalizing gc with
  | nil => rfl
  | cons t ts ih => rw [List.foldl_cons, ih, buildStep_graph_keys]

theorem occCount_cons (t : TaskInput) (ts : List TaskInput) (k : RawField) :
    occCount (t :: ts) k =
      (if t.id = .scalar .null then 0 else (t.dependencies.map RawField.scalar).count k) +
        occCount ts k := by
  unfold occCount
  by_cases h : t.id = RawField.scalar Value.null
  · rw [if_pos h, List.filter_cons, if_neg (by simpa using h)]
    omega
  · rw [if_neg h, List.filter_cons, if_pos (by simpa using h), List.map_cons, List.sum_cons]

theorem foldl_buildStep_counts (tasks : List TaskInput) :
    ∀ (gc : Graph × List (RawField × Nat)) (k : RawField),
    gc.2.map (fun p => p.1) = graphKeys gc.1 → k ∈ graphKeys gc.1 →
    countGet (tasks.foldl buildStep gc).2 k = countGet gc.2 k + occCount tasks k := by
  induction tasks with
  | nil =>
    intro gc k _ _
    simp [occCount]
  | cons t ts ih =>
    intro gc k hkeys hk
    rw [List.foldl_cons, occCount_cons]
    have hkeys' : (buildStep gc t).2.map (fun p => p.1) = graphKeys (buildStep gc t).1 := by
      rw [buildStep_counts_keys, buildStep_graph_keys, hkeys]
    have hk' : k ∈ graphKeys (buildStep gc t).1 := by
      rw [buildStep_graph_keys]
      exact hk
    rw [ih (buildStep gc t) k hkeys' hk']
    by_cases hnull : t.id = RawField.scalar Value.null
    · rw [if_pos hnull]
      have : buildStep gc t = gc := by
        unfold buildStep
        rw [if_pos hnull]
      rw [this]
      omega
    · rw [if_neg hnull]
      have hstep : (buildStep gc t).2 =
          (t.dependencies.filter
              (fun dep => decide (RawField.scalar dep ∈ graphKeys gc.1))).foldl
            (fun c dep => incrC c (.scalar dep)) gc.2 := by
        unfold buildStep
        rw [if_neg hnull]
      rw [hstep]
      rw [countGet_fold_incr _ _ _ (by
        intro d hd
        rw [hkeys]
        exact of_decide_eq_true (List.mem_filter.mp hd).2)]
      rw [countP_filter_keys _ _ _ hk]
      omega

theorem setdefault_keys_eq (g : Graph) (c : List (RawField × Nat)) (k : RawField)
    (h : c.map (fun p => p.1) = graphKeys g) :
    (setdefaultC c k).map (fun p => p.1) = graphKeys (setdefaultG g k) := by
  unfold setdefaultC setdefaultG
  rw [h]
  split_ifs with hmem
  · exact h
  · simp [graphKeys, h]

theorem countGet_append_zero (c : List (RawField × Nat)) (k0 k : RawField)
    (h : countGet c k = 0) : countGet (c ++ [(k0, 0)]) k = 0 := by
  induction c with
  | nil =>
    show countGet [(k0, 0)] k = 0
    rw [countGet_cons]
    split_ifs <;> rfl
  | cons p c ih =>
    obtain ⟨a, b⟩ := p
    rw [countGet_cons] at h
    show countGet ((a, b) :: (c ++ [(k0, 0)])) k = 0
    rw [countGet_cons]
    split_ifs at h ⊢ with hak
    · exact h
    · exact ih h

theorem foldl_buildInit_inv (tasks : List TaskInput) :
    ∀ (gc : Graph × List (RawField × Nat)),
    gc.2.map (fun p => p.1) = graphKeys gc.1 → (∀ k, countGet gc.2 k = 0) →
    (tasks.foldl buildInit gc).2.map (fun p => p.1) =
        graphKeys (tasks.foldl buildInit gc).1 ∧
      ∀ k, countGet (tasks.foldl buildInit gc).2 k = 0 := by
  induction tasks with
  | nil => intro gc h1 h2; exact ⟨h1, h2⟩
  | cons t ts ih =>
    intro gc h1 h2
    rw [List.foldl_cons]
    refine ih (buildInit gc t) ?_ ?_
    · unfold buildInit
      split_ifs
      · exact h1
      · exact setdefault_keys_eq _ _ _ h1
    · intro k
      unfold buildInit
      split_ifs
      · exact h2 k
      · unfold setdefaultC
        split_ifs
        · exact h2 k
        · exact countGet_append_zero _ _ _ (h2 k)

/-- C10: for every normalized task list and every graph node id `k`, the
dependents-count of `k` equals the total number of occurrences of `k`
across the dependency lists of all tasks with a non-null id — duplicated
entries add one per occurrence and a task listing its own id counts
itself — so the dependents-count counts dependency-edge occurrences, not
distinct depending tasks. -/
theorem C10_dependents_occurrences (tasks : List TaskInput) (k : RawField)
    (hk : k ∈ graphKeys (_build_graph tasks).1) :
    countGet (_build_graph tasks).2 k = occCount tasks k := by
  unfold _build_graph at hk ⊢
  have hinv := foldl_buildInit_inv tasks ([], []) (by rfl) (fun k => rfl)
  have hk0 : k ∈ graphKeys (tasks.foldl buildInit ([], [])).1 := by
    rw [foldl_buildStep_graph_keys] at hk
    exact hk
  rw [foldl_buildStep_counts tasks (tasks.foldl buildInit ([], [])) k hinv.1 hk0,
    hinv.2 k]
  omega

theorem C10_dependents_occurrences_witness :
    countGet (_build_graph (normalise_tasks c10Example)).2 (.scalar (.int 1)) =
      occCount (normalise_tasks c10Example) (.scalar (.int 1)) :=
  C10_dependents_occurrences (normalise_tasks c10Example) (.scalar (.int 1)) (by decide)


theorem keyLe_refl (a : ℚ × ℚ × ℚ) : keyLe a a := Or.inr ⟨rfl, Or.inr ⟨rfl, le_refl _⟩⟩

theorem keyLe_total (a b : ℚ × ℚ × ℚ) : keyLe a b ∨ keyLe b a := by
  unfold keyLe
  rcases lt_trichotomy a.1 b.1 with h | h | h
  · exact Or.inl (Or.inl h)
  · rcases lt_trichotomy a.2.1 b.2.1 with h2 | h2 | h2
    · exact Or.inl (Or.inr ⟨h, Or.inl h2⟩)
    · rcases le_total a.2.2 b.2.2 with h3 | h3
      · exact Or.inl (Or.inr ⟨h, Or.inr ⟨h2, h3⟩⟩)
      · exact Or.inr (Or.inr ⟨h.symm, Or.inr ⟨h2.symm, h3⟩⟩)
    · exact Or.inr (Or.inr ⟨h.symm, Or.inl h2⟩)
  · exact Or.inr (Or.inl h)

theorem keyLe_trans (a b c : ℚ × ℚ × ℚ) (h1 : keyLe a b) (h2 : keyLe b c) : keyLe a c := by
  unfold keyLe at *
  rcases h1 with h1 | ⟨e1, h1⟩
  · rcases h2 with h2 | ⟨e2, h2⟩
    · exact Or.inl (h1.trans h2)
    · exact Or.inl (by rw [← e2]; exact h1)
  · rcases h2 with h2 | ⟨e2, h2⟩
    · exact Or.inl (by rw [e1]; exact h2)
    · refine Or.inr ⟨e1.trans e2, ?_⟩
      rcases h1 with h1 | ⟨f1, h1⟩
      · rcases h2 with h2 | ⟨f2, h2⟩
        · exact Or.inl (h1.trans h2)
        · exact Or.inl (by rw [← f2]; exact h1)
      · rcases h2 with h2 | ⟨f2, h2⟩
        · exact Or.inl (by rw [f1]; exact h2)
        · exact Or.inr ⟨f1.trans f2, h1.trans h2⟩

theorem keyLe_of_not (a b : ℚ × ℚ × ℚ) (h : ¬ keyLe a b) : keyLe b a :=
  (keyLe_total a b).resolve_left h

theorem insertS_perm {α : Type} (key : α → ℚ × ℚ × ℚ) (x : α) (l : List α) :
    List.Perm (insertS key x l) (x :: l) := by
  induction l with
  | nil => exact List.Perm.refl _
  | cons y ys ih =>
    unfold insertS
    split_ifs
    · exact (List.Perm.cons y ih).trans (List.Perm.swap x y ys)
    · exact List.Perm.refl _

theorem sortS_fold_perm {α : Type} (key : α → ℚ × ℚ × ℚ) (l : List α) :
    ∀ acc, List.Perm (l.foldl (fun acc y => insertS key y acc) acc) (l ++ acc) := by
  induction l with
  | nil => intro acc; exact List.Perm.refl _
  | cons x xs ih =>
    intro acc
    show List.Perm (xs.foldl (fun acc y => insertS key y acc) (insertS key x acc)) _
    refine (ih (insertS key x acc)).trans ?_
    refine (List.Perm.append_left xs (insertS_perm key x acc)).trans ?_
    exact List.perm_middle

theorem sortS_perm {α : Type} (key : α → ℚ × ℚ × ℚ) (l : List α) :
    List.Perm (sortS key l) l := by
  have := sortS_fold_perm key l []
  simpa [sortS] using this

theorem insertS_pairwise {α : Type} (key : α → ℚ × ℚ × ℚ) (x : α) (l : List α)
    (hl : List.Pairwise (fun a b => keyLe (key a) (key b)) l) :
    List.Pairwise (fun a b => keyLe (key a) (key b)) (insertS key x l) := by
  induction l with
  | nil => simp [insertS]
  | cons y ys ih =>
    rcases List.pairwise_cons.mp hl with ⟨hy, hys⟩
    unfold insertS
    split_ifs with h
    · refine List.pairwise_cons.mpr ⟨?_, ih hys⟩
      intro z hz
      rcases List.mem_cons.mp ((insertS_perm key x ys).mem_iff.mp hz) with hz | hz
      · rw [hz]
        exact h
      · exact hy z hz
    · refine List.pairwise_cons.mpr ⟨?_, hl⟩
      intro z hz
      have hxy : keyLe (key x) (key y) := keyLe_of_not _ _ h
      rcases List.mem_cons.mp hz with hz | hz
      · rw [hz]
        exact hxy
      · exact keyLe_trans _ _ _ hxy (hy z hz)

theorem sortS_pairwise {α : Type} (key : α → ℚ × ℚ × ℚ) (l : List α) :
    List.Pairwise (fun a b => keyLe (key a) (key b)) (sortS key l) := by
  have aux : ∀ acc, List.Pairwise (fun a b => keyLe (key a) (key b)) acc →
      List.Pairwise (fun a b => keyLe (key a) (key b))
        (l.foldl (fun acc y => insertS key y acc) acc) := by
    induction l with
    | nil => intro acc h; exact h
    | cons x xs ih =>
      intro acc h
      exact ih (insertS key x acc) (insertS_pairwise key x acc h)
  exact aux [] (List.Pairwise.nil)

theorem insertS_filter {α : Type} (key : α → ℚ × ℚ × ℚ) (x : α) (l : List α)
    (hl : List.Pairwise (fun a b => keyLe (key a) (key b)) l) (k : ℚ × ℚ × ℚ) :
    (insertS key x l).filter (fun a => decide (key a = k)) =
      if key x = k then l.filter (fun a => decide (key a = k)) ++ [x]
      else l.filter (fun a => decide (key a = k)) := by
  induction l with
  | nil =>
    by_cases hxk : key x = k
    · rw [if_pos hxk]
      simp [insertS, List.filter, hxk]
    · rw [if_neg hxk]
      simp [insertS, List.filter, hxk]
  | cons y ys ih =>
    rcases List.pairwise_cons.mp hl with ⟨hy, hys⟩
    have heq : insertS key x (y :: ys) =
        if keyLe (key y) (key x) then y :: insertS key x ys else x :: y :: ys := rfl
    by_cases hcmp : keyLe (key y) (key x)
    · rw [heq, if_pos hcmp]
      rw [List.filter_cons, ih hys]
      by_cases hyk : key y = k
      · by_cases hxk : key x = k
        · rw [if_pos (by simpa using hyk), if_pos hxk, if_pos hxk, List.filter_cons,
            if_pos (by simpa using hyk)]
          simp
        · rw [if_pos (by simpa using hyk), if_neg hxk, if_neg hxk, List.filter_cons,
            if_pos (by simpa using hyk)]
      · by_cases hxk : key x = k
        · rw [if_neg (by simpa using hyk), if_pos hxk, if_pos hxk, List.filter_cons,
            if_neg (by simpa using hyk)]
        · rw [if_neg (by simpa using hyk), if_neg hxk, if_neg hxk, List.filter_cons,
            if_neg (by simpa using hyk)]
    · rw [heq, if_neg hcmp]
      by_cases hxk : key x = k
      · have hnone : ∀ z ∈ y :: ys, ¬ key z = k := by
          intro z hz hzk
          rcases List.mem_cons.mp hz with hz | hz
          · subst hz
            exact hcmp (by rw [hzk, hxk]; exact keyLe_refl _)
          · exact hcmp (keyLe_trans _ _ _ (hy z hz) (by rw [hzk, hxk]; exact keyLe_refl _))
        have hfe : (y :: ys).filter (fun a => decide (key a = k)) = [] := by
          rw [List.filter_eq_nil_iff]
          intro z hz
          simpa using hnone z hz
        rw [if_pos hxk, hfe, List.filter_cons, if_pos (by simpa using hxk), hfe]
        simp
      · rw [if_neg hxk, List.filter_cons, if_neg (by simpa using hxk)]

theorem sortS_filter {α : Type} (key : α → ℚ × ℚ × ℚ) (l : List α) (k : ℚ × ℚ × ℚ) :
    (sortS key l).filter (fun a => decide (key a = k)) =
      l.filter (fun a => decide (key a = k)) := by
  have aux : ∀ acc, List.Pairwise (fun a b => keyLe (key a) (key b)) acc →
      (l.foldl (fun acc y => insertS key y acc) acc).filter (fun a => decide (key a = k)) =
        acc.filter (fun a => decide (key a = k)) ++ l.filter (fun a => decide (key a = k)) := by
    induction l with
    | nil => intro acc h; simp
    | cons x xs ih =>
      intro acc h
      show (xs.foldl (fun acc y => insertS key y acc) (insertS key x acc)).filter _ = _
      rw [ih (insertS key x acc) (insertS_pairwise key x acc h),
        insertS_filter key x acc h k, List.filter_cons]
      by_cases hxk : key x = k
      · rw [if_pos hxk, if_pos (by simpa using hxk)]
        simp
      · rw [if_neg hxk, if_neg (by simpa using hxk)]
  have := aux [] List.Pairwise.nil
  simpa [sortS] using this

theorem compute_ok (s : String) (hs : Recognized s) (u i e d : ℚ) :
    ∃ q, _compute_score_for_strategy u i e d s = .ok q := by
  rcases hs with h | h | h | h | h <;> subst h
  · exact ⟨_, compute_fastest u i e d⟩
  · exact ⟨_, compute_high_impact u i e d⟩
  · exact ⟨_, compute_deadline u i e d⟩
  · exact ⟨_, compute_smart u i e d⟩
  · exact ⟨_, (compute_empty_eq_smart u i e d).trans (compute_smart u i e d)⟩

theorem scoredOne_ok (counts : List (RawField × Nat)) (cyc : List RawField)
    (s : String) (today : Int) (t : TaskInput) (hs : Recognized s) :
    ∃ r, scoredOne counts cyc s today t = .ok r := by
  obtain ⟨q, hq⟩ := compute_ok s hs (_urgency_score t.due_date today).1
    (_importance_score t.importance).1 (_effort_score t.estimated_hours).1
    (_dependency_score t counts cyc).1
  simp only [scoredOne]
  rw [hq]
  exact ⟨_, rfl⟩

theorem mapExc_ok (f : TaskInput → Except StrategyError ScoredTask)
    (h : ∀ t, ∃ r, f t = .ok r) : ∀ ts, ∃ rs, mapExc f ts = .ok rs := by
  intro ts
  induction ts with
  | nil => exact ⟨[], rfl⟩
  | cons t ts ih =>
    obtain ⟨r, hr⟩ := h t
    obtain ⟨rs, hrs⟩ := ih
    refine ⟨r :: rs, ?_⟩
    unfold mapExc
    rw [hr, hrs]

/-- For every raw task list, recognized strategy and reference date, the
idealized (never-raising) model of `rank_tasks` succeeds and returns the
scored tasks sorted by the total lexicographic key (descending rounded
score, ascending days-until-due with the 99999-day sentinel for absent
due dates, descending importance with missing importance as 0): the
output is a permutation of the pre-sort scored list, pairwise ordered by
the key order, stable (the elements of each fixed key value keep their
pre-sort relative order), and deterministic (equal calls give equal
results).  Via the agreement theorems below this describes the real
`rank_tasks` exactly on the inputs whose normalized non-null ids are
hashable; on the others the real call raises `TypeError` before scoring
anything. -/
theorem rank_ordering_recognized (raw_tasks : List RawEntry) (strategy : String) (today : Int)
    (h : Recognized strategy) : RankOk raw_tasks strategy today := by
  obtain ⟨pre, hpre⟩ := mapExc_ok
    (scoredOne (_build_graph (normalise_tasks raw_tasks)).2
      (_detect_cycles (_build_graph (normalise_tasks raw_tasks)).1) strategy today)
    (fun t => scoredOne_ok _ _ _ _ t h) (normalise_tasks raw_tasks)
  have hscore : scoreTasks raw_tasks strategy today = .ok pre := hpre
  refine ⟨pre, sortS (sort_key today) pre, hscore, ?_, ?_, ?_, ?_, rfl⟩
  · unfold rank_tasks
    rw [hscore]
  · exact sortS_perm (sort_key today) pre
  · exact sortS_pairwise (sort_key today) pre
  · intro k
    exact sortS_filter (sort_key today) pre k

theorem rank_ordering_recognized_example : RankOk c3Example "smart_balance" 0 :=
  rank_ordering_recognized c3Example "smart_balance" 0 (Or.inr (Or.inr (Or.inr (Or.inl rfl))))

theorem visitMany_nil (g : Graph) (f : Nat) (s : St) : visitMany g f [] s = s := rfl

theorem visitMany_cons (g : Graph) (f : Nat) (m : RawField) (ms : List RawField) (s : St) :
    visitMany g f (m :: ms) s = visitMany g f ms (visit g f m s) := rfl

theorem visitMany_append (g : Graph) (f : Nat) (l1 l2 : List RawField) (s : St) :
    visitMany g f (l1 ++ l2) s = visitMany g f l2 (visitMany g f l1 s) :=
  List.foldl_append _ _ _ _

theorem visit_zero (g : Graph) (n : RawField) (s : St) : visit g 0 n s = s := rfl

theorem visit_succ (g : Graph) (f : Nat) (n : RawField) (s : St) :
    visit g (f + 1) n s =
      if n ∈ s.stack then ⟨s.visited, s.stack, s.stack ++ s.inCycle⟩
      else if n ∈ s.visited then s
      else
        ⟨(visitMany g f (neighborsOf g n) ⟨n :: s.visited, n :: s.stack, s.inCycle⟩).visited,
         (visitMany g f (neighborsOf g n) ⟨n :: s.visited, n :: s.stack, s.inCycle⟩).stack.erase n,
         (visitMany g f (neighborsOf g n) ⟨n :: s.visited, n :: s.stack, s.inCycle⟩).inCycle⟩ := rfl

theorem visitMany_zero (g : Graph) (l : List RawField) (s : St) : visitMany g 0 l s = s := by
  induction l generalizing s with
  | nil => rfl
  | cons m ms ih => rw [visitMany_cons, visit_zero, ih]

theorem visit_stack (g : Graph) : ∀ (f : Nat) (n : RawField) (s : St),
    (visit g f n s).stack = s.stack := by
  intro f
  induction f with
  | zero => intro n s; rfl
  | succ f ih =>
    intro n s
    rw [visit_succ]
    have hm : ∀ (l : List RawField) (s' : St), (visitMany g f l s').stack = s'.stack := by
      intro l
      induction l with
      | nil => intro s'; rfl
      | cons m ms ihl => intro s'; rw [visitMany_cons, ihl, ih]
    split_ifs with h1 h2
    · rfl
    · rfl
    · show ((visitMany g f (neighborsOf g n) ⟨_, n :: s.stack, _⟩).stack).erase n = s.stack
      rw [hm]
      exact List.erase_cons_head n s.stack

theorem visitMany_stack (g : Graph) (f : Nat) : ∀ (l : List RawField) (s : St),
    (visitMany g f l s).stack = s.stack := by
  intro l
  induction l with
  | nil => intro s; rfl
  | cons m ms ih => intro s; rw [visitMany_cons, ih, visit_stack]

theorem visit_visited_mono (g : Graph) : ∀ (f : Nat) (n : RawField) (s : St),
    s.visited ⊆ (visit g f n s).visited := by
  intro f
  induction f with
  | zero => intro n s; exact fun x hx => hx
  | succ f ih =>
    intro n s
    have hm : ∀ (l : List RawField) (s' : St), s'.visited ⊆ (visitMany g f l s').visited := by
      intro l
      induction l with
      | nil => intro s'; exact fun x hx => hx
      | cons m ms ihl => intro s'; rw [visitMany_cons]; exact (ih m s').trans (ihl _)
    rw [visit_succ]
    split_ifs with h1 h2
    · exact fun x hx => hx
    · exact fun x hx => hx
    · exact (List.subset_cons_self n s.visited).trans
        (hm (neighborsOf g n) ⟨n :: s.visited, n :: s.stack, s.inCycle⟩)

theorem visitMany_visited_mono (g : Graph) (f : Nat) : ∀ (l : List RawField) (s : St),
    s.visited ⊆ (visitMany g f l s).visited := by
  intro l
  induction l with
  | nil => intro s; exact fun x hx => hx
  | cons m ms ih => intro s; rw [visitMany_cons]; exact (visit_visited_mono g f m s).trans (ih _)

theorem visit_inCycle_mono (g : Graph) : ∀ (f : Nat) (n : RawField) (s : St),
    s.inCycle ⊆ (visit g f n s).inCycle := by
  intro f
  induction f with
  | zero => intro n s; exact fun x hx => hx
  | succ f ih =>
    intro n s
    have hm : ∀ (l : List RawField) (s' : St), s'.inCycle ⊆ (visitMany g f l s').inCycle := by
      intro l
      induction l with
      | nil => intro s'; exact fun x hx => hx
      | cons m ms ihl => intro s'; rw [visitMany_cons]; exact (ih m s').trans (ihl _)
    rw [visit_succ]
    split_ifs with h1 h2
    · exact List.subset_append_right _ _
    · exact fun x hx => hx
    · exact hm (neighborsOf g n) ⟨n :: s.visited, n :: s.stack, s.inCycle⟩

theorem visitMany_inCycle_mono (g : Graph) (f : Nat) : ∀ (l : List RawField) (s : St),
    s.inCycle ⊆ (visitMany g f l s).inCycle := by
  intro l
  induction l with
  | nil => intro s; exact fun x hx => hx
  | cons m ms ih => intro s; rw [visitMany_cons]; exact (visit_inCycle_mono g f m s).trans (ih _)

theorem visitMany_mark (g : Graph) (f : Nat) (hf : 0 < f) :
    ∀ (l : List RawField) (s : St) (a : RawField), a ∈ l → a ∈ s.stack →
      ∀ b ∈ s.stack, b ∈ (visitMany g f l s).inCycle := by
  intro l
  induction l with
  | nil => intro s a ha; exact absurd ha (List.not_mem_nil a)
  | cons x xs ih =>
    intro s a ha has b hb
    rw [visitMany_cons]
    rcases List.mem_cons.mp ha with rfl | ha
    · obtain ⟨f', rfl⟩ : ∃ f', f = f' + 1 := ⟨f - 1, by omega⟩
      have hstep : visit g (f' + 1) a s = ⟨s.visited, s.stack, s.stack ++ s.inCycle⟩ := by
        rw [visit_succ, if_pos has]
      rw [hstep]
      exact visitMany_inCycle_mono g (f' + 1) xs _ (List.mem_append_left _ hb)
    · refine ih (visit g f x s) a ha ?_ b ?_
      · rw [visit_stack]; exact has
      · rw [visit_stack]; exact hb

theorem visit_adds (g : Graph) (f : Nat) (hf : 0 < f) (n : RawField) (s : St)
    (hns : n ∉ s.stack) : n ∈ (visit g f n s).visited := by
  obtain ⟨f', rfl⟩ : ∃ f', f = f' + 1 := ⟨f - 1, by omega⟩
  rw [visit_succ, if_neg hns]
  split_ifs with h2
  · exact h2
  · show n ∈ (visitMany g f' (neighborsOf g n) ⟨n :: s.visited, _, _⟩).visited
    exact visitMany_visited_mono g f' _ _ (List.mem_cons_self n s.visited)

theorem mem_univ_of_key (g : Graph) (k : RawField) (hk : k ∈ graphKeys g) :
    k ∈ univOf g := by
  simp only [univOf, List.mem_toFinset, List.mem_append]
  exact Or.inl hk

theorem mem_univ_of_neighbor (g : Graph) (n x : RawField) (hx : x ∈ neighborsOf g n) :
    x ∈ univOf g := by
  simp only [univOf, List.mem_toFinset, List.mem_append]
  refine Or.inr ?_
  induction g with
  | nil => exact absurd hx (List.not_mem_nil x)
  | cons p rest ih =>
    obtain ⟨k, vs⟩ := p
    show x ∈ (((k, vs) :: rest).map (fun p => p.2)).flatten
    rw [List.map_cons, List.flatten_cons]
    have hx' : x ∈ (if k = n then vs else neighborsOf rest n) := hx
    split_ifs at hx' with hkn
    · exact List.mem_append_left _ hx'
    · exact List.mem_append_right _ (ih hx')

theorem freeCount_mono (g : Graph) (s s' : St) (h : s.visited ⊆ s'.visited) :
    freeCount g s' ≤ freeCount g s := by
  apply Finset.card_le_card
  intro x hx
  rw [Finset.mem_filter] at hx ⊢
  exact ⟨hx.1, fun hmem => hx.2 (h hmem)⟩

theorem freeCount_cons (g : Graph) (n : RawField) (s : St) (hn : n ∈ univOf g)
    (hnv : n ∉ s.visited) (s' : St) (hs' : s'.visited = n :: s.visited) :
    freeCount g s' < freeCount g s := by
  unfold freeCount
  rw [hs']
  have hsub : (univOf g).filter (fun x => x ∉ n :: s.visited) ⊆
      (univOf g).filter (fun x => x ∉ s.visited) := by
    intro x hx
    rw [Finset.mem_filter] at hx ⊢
    exact ⟨hx.1, fun h => hx.2 (List.mem_cons_of_mem _ h)⟩
  refine Finset.card_lt_card ((Finset.ssubset_iff_of_subset hsub).mpr ⟨n, ?_, ?_⟩)
  · rw [Finset.mem_filter]
    exact ⟨hn, hnv⟩
  · rw [Finset.mem_filter]
    intro hmem
    exact hmem.2 (List.mem_cons_self n s.visited)

theorem mem_keys_of_neighbor (g : Graph) (n x : RawField) (hx : x ∈ neighborsOf g n) :
    n ∈ graphKeys g := by
  induction g with
  | nil => exact absurd hx (List.not_mem_nil x)
  | cons p rest ih =>
    obtain ⟨k, vs⟩ := p
    have hx' : x ∈ (if k = n then vs else neighborsOf rest n) := hx
    show n ∈ k :: graphKeys rest
    split_ifs at hx' with hkn
    · rw [hkn]
      exact List.mem_cons_self n _
    · exact List.mem_cons_of_mem _ (ih hx')

theorem visit_core (g : Graph) (X Y : RawField) (f : Nat) (A B : RawField)
    (hAB : (A = X ∧ B = Y) ∨ (A = Y ∧ B = X))
    (hBA : A ∈ neighborsOf g B)
    (t : St) (hA : A ∈ t.stack) (hf : freeCount g t < f) (hJ : TwoJ X Y t) :
    X ∈ (visit g f B t).inCycle ∧ Y ∈ (visit g f B t).inCycle := by
  obtain ⟨f', rfl⟩ : ∃ f', f = f' + 1 := ⟨f - 1, by omega⟩
  rw [visit_succ]
  split_ifs with h1 h2
  · show X ∈ t.stack ++ t.inCycle ∧ Y ∈ t.stack ++ t.inCycle
    rcases hAB with ⟨rfl, rfl⟩ | ⟨rfl, rfl⟩
    · exact ⟨List.mem_append_left _ hA, List.mem_append_left _ h1⟩
    · exact ⟨List.mem_append_left _ h1, List.mem_append_left _ hA⟩
  · rcases hAB with ⟨rfl, rfl⟩ | ⟨rfl, rfl⟩
    · exact (hJ.2 h2).resolve_left h1
    · exact (hJ.1 h2).resolve_left h1
  · have hBkeys : B ∈ graphKeys g := mem_keys_of_neighbor g B A hBA
    have hBuniv : B ∈ univOf g := mem_univ_of_key g B hBkeys
    have hf2 : 0 < f' := by
      have h1le : 1 ≤ freeCount g t := by
        rw [freeCount]
        refine Finset.card_pos.mpr ⟨B, ?_⟩
        rw [Finset.mem_filter]
        exact ⟨hBuniv, h2⟩
      omega
    have hmark := visitMany_mark g f' hf2 (neighborsOf g B)
      ⟨B :: t.visited, B :: t.stack, t.inCycle⟩ A hBA (List.mem_cons_of_mem _ hA)
    rcases hAB with ⟨rfl, rfl⟩ | ⟨rfl, rfl⟩
    · exact ⟨hmark _ (List.mem_cons_of_mem _ hA), hmark _ (List.mem_cons_self _ _)⟩
    · exact ⟨hmark _ (List.mem_cons_self _ _), hmark _ (List.mem_cons_of_mem _ hA)⟩

theorem visitJ (g : Graph) (X Y : RawField) (hXY : Y ∈ neighborsOf g X)
    (hYX : X ∈ neighborsOf g Y) :
    ∀ f : Nat,
      (∀ n s, n ∈ univOf g → freeCount g s < f → TwoJ X Y s → TwoJ X Y (visit g f n s)) ∧
      (∀ l s, (∀ x ∈ l, x ∈ univOf g) → freeCount g s < f → TwoJ X Y s →
        TwoJ X Y (visitMany g f l s)) := by
  intro f
  induction f with
  | zero =>
    refine ⟨fun n s _ _ hJ => hJ, fun l s _ _ hJ => ?_⟩
    rw [visitMany_zero]
    exact hJ
  | succ f ih =>
    have hP : ∀ n s, n ∈ univOf g → freeCount g s < f + 1 → TwoJ X Y s →
        TwoJ X Y (visit g (f + 1) n s) := by
      intro n s hn hf hJ
      rw [visit_succ]
      split_ifs with h1 h2
      · refine ⟨fun hv => ?_, fun hv => ?_⟩
        · rcases hJ.1 hv with h | h
          · exact Or.inl h
          · exact Or.inr ⟨List.mem_append_right _ h.1, List.mem_append_right _ h.2⟩
        · rcases hJ.2 hv with h | h
          · exact Or.inl h
          · exact Or.inr ⟨List.mem_append_right _ h.1, List.mem_append_right _ h.2⟩
      · exact hJ
      · have hJ1 : TwoJ X Y ⟨n :: s.visited, n :: s.stack, s.inCycle⟩ := by
          refine ⟨fun hv => ?_, fun hv => ?_⟩
          · rcases List.mem_cons.mp hv with hv | hv
            · exact Or.inl (by rw [hv]; exact List.mem_cons_self _ _)
            · rcases hJ.1 hv with h | h
              · exact Or.inl (List.mem_cons_of_mem _ h)
              · exact Or.inr h
          · rcases List.mem_cons.mp hv with hv | hv
            · exact Or.inl (by rw [hv]; exact List.mem_cons_self _ _)
            · rcases hJ.2 hv with h | h
              · exact Or.inl (List.mem_cons_of_mem _ h)
              · exact Or.inr h
        have hfree1 : freeCount g ⟨n :: s.visited, n :: s.stack, s.inCycle⟩ < f := by
          have hlt := freeCount_cons g n s hn h2 ⟨n :: s.visited, n :: s.stack, s.inCycle⟩ rfl
          omega
        by_cases hnX : n = X
        · subst hnX
          obtain ⟨l1, l2, hsplit⟩ := List.append_of_mem hXY
          rw [hsplit, visitMany_append, visitMany_cons]
          have hJt : TwoJ n Y (visitMany g f l1 ⟨n :: s.visited, n :: s.stack, s.inCycle⟩) :=
            ih.2 l1 _ (fun x hx => mem_univ_of_neighbor g n x
              (by rw [hsplit]; exact List.mem_append_left _ hx)) hfree1 hJ1
          have hfreet :
              freeCount g (visitMany g f l1 ⟨n :: s.visited, n :: s.stack, s.inCycle⟩) < f :=
            lt_of_le_of_lt (freeCount_mono g _ _ (visitMany_visited_mono g f l1 _)) hfree1
          have hAstack : n ∈ (visitMany g f l1 ⟨n :: s.visited, n :: s.stack, s.inCycle⟩).stack := by
            rw [visitMany_stack]
            exact List.mem_cons_self _ _
          have hcore := visit_core g n Y f n Y (Or.inl ⟨rfl, rfl⟩) hYX
            (visitMany g f l1 ⟨n :: s.visited, n :: s.stack, s.inCycle⟩) hAstack hfreet hJt
          have hfin1 := visitMany_inCycle_mono g f l2 _ hcore.1
          have hfin2 := visitMany_inCycle_mono g f l2 _ hcore.2
          exact ⟨fun _ => Or.inr ⟨hfin1, hfin2⟩, fun _ => Or.inr ⟨hfin1, hfin2⟩⟩
        · by_cases hnY : n = Y
          · subst hnY
            obtain ⟨l1, l2, hsplit⟩ := List.append_of_mem hYX
            rw [hsplit, visitMany_append, visitMany_cons]
            have hJt : TwoJ X n (visitMany g f l1 ⟨n :: s.visited, n :: s.stack, s.inCycle⟩) :=
              ih.2 l1 _ (fun x hx => mem_univ_of_neighbor g n x
                (by rw [hsplit]; exact List.mem_append_left _ hx)) hfree1 hJ1
            have hfreet :
                freeCount g (visitMany g f l1 ⟨n :: s.visited, n :: s.stack, s.inCycle⟩) < f :=
              lt_of_le_of_lt (freeCount_mono g _ _ (visitMany_visited_mono g f l1 _)) hfree1
            have hAstack :
                n ∈ (visitMany g f l1 ⟨n :: s.visited, n :: s.stack, s.inCycle⟩).stack := by
              rw [visitMany_stack]
              exact List.mem_cons_self _ _
            have hcore := visit_core g X n f n X (Or.inr ⟨rfl, rfl⟩) hXY
              (visitMany g f l1 ⟨n :: s.visited, n :: s.stack, s.inCycle⟩) hAstack hfreet hJt
            have hfin1 := visitMany_inCycle_mono g f l2 _ hcore.1
            have hfin2 := visitMany_inCycle_mono g f l2 _ hcore.2
            exact ⟨fun _ => Or.inr ⟨hfin1, hfin2⟩, fun _ => Or.inr ⟨hfin1, hfin2⟩⟩
          · have hJ2 : TwoJ X Y (visitMany g f (neighborsOf g n)
                ⟨n :: s.visited, n :: s.stack, s.inCycle⟩) :=
              ih.2 _ _ (fun x hx => mem_univ_of_neighbor g n x hx) hfree1 hJ1
            have hstack2 : (visitMany g f (neighborsOf g n)
                ⟨n :: s.visited, n :: s.stack, s.inCycle⟩).stack = n :: s.stack := by
              rw [visitMany_stack]
            refine ⟨fun hv => ?_, fun hv => ?_⟩
            · rcases hJ2.1 hv with h | h
              · refine Or.inl ?_
                rw [hstack2, List.erase_cons_head]
                rw [hstack2] at h
                rcases List.mem_cons.mp h with h | h
                · exact absurd h.symm hnX
                · exact h
              · exact Or.inr h
            · rcases hJ2.2 hv with h | h
              · refine Or.inl ?_
                rw [hstack2, List.erase_cons_head]
                rw [hstack2] at h
                rcases List.mem_cons.mp h with h | h
                · exact absurd h.symm hnY
                · exact h
              · exact Or.inr h
    refine ⟨hP, ?_⟩
    intro l
    induction l with
    | nil =>
      intro s _ _ hJ
      rw [visitMany_nil]
      exact hJ
    | cons x xs ihl =>
      intro s hu hf hJ
      rw [visitMany_cons]
      refine ihl _ (fun y hy => hu y (List.mem_cons_of_mem _ hy)) ?_
        (hP x s (hu x (List.mem_cons_self _ _)) hf hJ)
      exact lt_of_le_of_lt (freeCount_mono g s _ (visit_visited_mono g (f + 1) x s)) hf

theorem detect_stack (g : Graph) : ∀ (ks : List RawField) (s : St),
    (ks.foldl (fun s node => if node ∈ s.visited then s
      else visit g (cycleFuel g) node s) s).stack = s.stack := by
  intro ks
  induction ks with
  | nil => intro s; rfl
  | cons k ks ih =>
    intro s
    rw [List.foldl_cons, ih]
    split_ifs with h
    · rfl
    · exact visit_stack g _ k s

theorem detect_visited_mono (g : Graph) : ∀ (ks : List RawField) (s : St),
    s.visited ⊆ (ks.foldl (fun s node => if node ∈ s.visited then s
      else visit g (cycleFuel g) node s) s).visited := by
  intro ks
  induction ks with
  | nil => intro s; exact fun x hx => hx
  | cons k ks ih =>
    intro s
    rw [List.foldl_cons]
    refine subset_trans ?_ (ih _)
    split_ifs with h
    · exact fun x hx => hx
    · exact visit_visited_mono g _ k s

theorem detect_TwoJ (g : Graph) (X Y : RawField) (hXY : Y ∈ neighborsOf g X)
    (hYX : X ∈ neighborsOf g Y) : ∀ (ks : List RawField) (s : St),
    (∀ k ∈ ks, k ∈ univOf g) → freeCount g s < cycleFuel g → TwoJ X Y s →
    TwoJ X Y (ks.foldl (fun s node => if node ∈ s.visited then s
      else visit g (cycleFuel g) node s) s) := by
  intro ks
  induction ks with
  | nil => intro s _ _ hJ; exact hJ
  | cons k ks ih =>
    intro s hu hf hJ
    rw [List.foldl_cons]
    have hnext : TwoJ X Y (if k ∈ s.visited then s else visit g (cycleFuel g) k s) := by
      split_ifs with h
      · exact hJ
      · exact (visitJ g X Y hXY hYX (cycleFuel g)).1 k s (hu k (List.mem_cons_self _ _)) hf hJ
    refine ih _ (fun x hx => hu x (List.mem_cons_of_mem _ hx)) ?_ hnext
    refine lt_of_le_of_lt (freeCount_mono g s _ ?_) hf
    split_ifs with h
    · exact fun x hx => hx
    · exact visit_visited_mono g _ k s

theorem detect_visits_all (g : Graph) : ∀ (ks : List RawField) (s : St),
    s.stack = [] → ∀ k ∈ ks,
    k ∈ (ks.foldl (fun s node => if node ∈ s.visited then s
      else visit g (cycleFuel g) node s) s).visited := by
  intro ks
  induction ks with
  | nil => intro s _ k hk; exact absurd hk (List.not_mem_nil k)
  | cons k0 ks ih =>
    intro s hst k hk
    rw [List.foldl_cons]
    have hst' : (if k0 ∈ s.visited then s else visit g (cycleFuel g) k0 s).stack = [] := by
      split_ifs with h
      · exact hst
      · rw [visit_stack]
        exact hst
    rcases List.mem_cons.mp hk with hk | hk
    · subst hk
      refine detect_visited_mono g ks _ ?_
      split_ifs with h
      · exact h
      · refine visit_adds g (cycleFuel g) ?_ k s ?_
        · unfold cycleFuel
          omega
        · rw [hst]
          exact List.not_mem_nil k
    · exact ih _ hst' k hk

theorem freeCount_init_lt (g : Graph) : freeCount g initSt < cycleFuel g := by
  have h1 : freeCount g initSt = (univOf g).card := by
    unfold freeCount initSt
    rw [Finset.filter_true_of_mem]
    intro x _
    exact List.not_mem_nil x
  have h2 : (univOf g).card ≤ (graphKeys g ++ (g.map (fun p => p.2)).flatten).length :=
    List.toFinset_card_le _
  have h3 : (graphKeys g ++ (g.map (fun p => p.2)).flatten).length =
      g.length + (g.map (fun p => p.2.length)).sum := by
    rw [List.length_append]
    congr 1
    · exact List.length_map _ _
    · rw [List.length_flatten, List.map_map]
      rfl
  unfold cycleFuel
  omega

/-- C6: the cycle detector flags both endpoints of every direct two-cycle
(`A → B` and `B → A` both present puts both `A` and `B` in the returned
cycle set), and every node whose adjacency list contains its own id (a
self-loop, as produced by a task whose dependencies include its own id)
is flagged as cycle-participating. -/
theorem C6_cycle_detection :
    (∀ (g : Graph) (A B : RawField), B ∈ neighborsOf g A → A ∈ neighborsOf g B →
      A ∈ _detect_cycles g ∧ B ∈ _detect_cycles g) ∧
    (∀ (g : Graph) (A : RawField), A ∈ neighborsOf g A → A ∈ _detect_cycles g) := by
  have main : ∀ (g : Graph) (A B : RawField), B ∈ neighborsOf g A → A ∈ neighborsOf g B →
      A ∈ _detect_cycles g ∧ B ∈ _detect_cycles g := by
    intro g A B hAB hBA
    have hJ0 : TwoJ A B initSt :=
      ⟨fun h => absurd h (List.not_mem_nil A), fun h => absurd h (List.not_mem_nil B)⟩
    have hJ := detect_TwoJ g A B hAB hBA (graphKeys g) initSt
      (fun k hk => mem_univ_of_key g k hk) (freeCount_init_lt g) hJ0
    have hstack := detect_stack g (graphKeys g) initSt
    have hA : A ∈ ((graphKeys g).foldl (fun s node => if node ∈ s.visited then s
        else visit g (cycleFuel g) node s) initSt).visited :=
      detect_visits_all g (graphKeys g) initSt rfl A (mem_keys_of_neighbor g A B hAB)
    have hboth : A ∈ ((graphKeys g).foldl (fun s node => if node ∈ s.visited then s
        else visit g (cycleFuel g) node s) initSt).inCycle ∧
        B ∈ ((graphKeys g).foldl (fun s node => if node ∈ s.visited then s
          else visit g (cycleFuel g) node s) initSt).inCycle := by
      rcases hJ.1 hA with h | h
      · rw [hstack] at h
        exact absurd h (List.not_mem_nil A)
      · exact h
    exact hboth
  exact ⟨main, fun g A h => (main g A A h h).1⟩

theorem C6_cycle_detection_witness :
    ((.scalar (.int 1) : RawField) ∈ _detect_cycles
        [(.scalar (.int 1), [.scalar (.int 2)]), (.scalar (.int 2), [.scalar (.int 1)])] ∧
      (.scalar (.int 2) : RawField) ∈ _detect_cycles
        [(.scalar (.int 1), [.scalar (.int 2)]), (.scalar (.int 2), [.scalar (.int 1)])]) ∧
    (.scalar (.int 7) : RawField) ∈ _detect_cycles [(.scalar (.int 7), [.scalar (.int 7)])] :=
  ⟨C6_cycle_detection.1 [(.scalar (.int 1), [.scalar (.int 2)]),
      (.scalar (.int 2), [.scalar (.int 1)])] (.scalar (.int 1)) (.scalar (.int 2))
      (by decide) (by decide),
   C6_cycle_detection.2 [(.scalar (.int 7), [.scalar (.int 7)])] (.scalar (.int 7)) (by decide)⟩


theorem buildInitAllE_ok_eq : ∀ (ts : List TaskInput) (gc r : Graph × List (RawField × Nat)),
    buildInitAllE gc ts = .ok r → r = ts.foldl buildInit gc := by
  intro ts
  induction ts with
  | nil =>
    intro gc r h
    simp only [buildInitAllE] at h
    cases h
    rfl
  | cons t ts ih =>
    intro gc r h
    rw [List.foldl_cons]
    cases hE : buildInitE gc t with
    | error e =>
      simp only [buildInitAllE, hE] at h
      exact Except.noConfusion h
    | ok gc' =>
      simp only [buildInitAllE, hE] at h
      have hr := ih gc' r h
      have hgc : gc' = buildInit gc t := by
        unfold buildInitE at hE
        unfold buildInit
        by_cases hnull : t.id = RawField.scalar Value.null
        · rw [if_pos hnull] at hE
          rw [if_pos hnull]
          cases hE
          rfl
        · rw [if_neg hnull] at hE
          rw [if_neg hnull]
          by_cases hh : pyHashable t.id = true
          · rw [if_pos hh] at hE
            cases hE
            rfl
          · rw [if_neg hh] at hE
            exact Except.noConfusion hE
      rw [hr, hgc]

theorem buildInitAllE_ok_of : ∀ (ts : List TaskInput), HashableIds ts →
    ∀ gc, buildInitAllE gc ts = .ok (ts.foldl buildInit gc) := by
  intro ts
  induction ts with
  | nil => intro _ gc; rfl
  | cons t ts ih =>
    intro h gc
    rw [List.foldl_cons]
    have hE : buildInitE gc t = .ok (buildInit gc t) := by
      unfold buildInitE buildInit
      by_cases hnull : t.id = RawField.scalar Value.null
      · rw [if_pos hnull, if_pos hnull]
      · rw [if_neg hnull, if_neg hnull, if_pos (h t (List.mem_cons_self t ts) hnull)]
    simp only [buildInitAllE, hE]
    exact ih (fun x hx hnx => h x (List.mem_cons_of_mem t hx) hnx) (buildInit gc t)

theorem build_graphE_eq (tasks : List TaskInput) (h : HashableIds tasks) :
    _build_graphE tasks = .ok (_build_graph tasks) := by
  unfold _build_graphE _build_graph
  rw [buildInitAllE_ok_of tasks h ([], [])]

theorem build_graphE_ok_eq (tasks : List TaskInput) (r : Graph × List (RawField × Nat))
    (h : _build_graphE tasks = .ok r) : r = _build_graph tasks := by
  unfold _build_graphE at h
  cases hE : buildInitAllE ([], []) tasks with
  | error e =>
    simp only [hE] at h
    exact Except.noConfusion h
  | ok gc0 =>
    simp only [hE] at h
    cases h
    unfold _build_graph
    rw [buildInitAllE_ok_eq tasks ([], []) gc0 hE]

theorem scoreTasksE_agrees (raw_tasks : List RawEntry) (strategy : String) (today : Int)
    (h : HashableIds (normalise_tasks raw_tasks)) :
    scoreTasksE raw_tasks strategy today = liftStrategy (scoreTasks raw_tasks strategy today) := by
  unfold scoreTasksE
  rw [build_graphE_eq _ h]
  rfl

theorem rank_tasksE_agrees (raw_tasks : List RawEntry) (strategy : String) (today : Int)
    (h : HashableIds (normalise_tasks raw_tasks)) :
    rank_tasksE raw_tasks strategy today = liftStrategy (rank_tasks raw_tasks strategy today) := by
  unfold rank_tasksE rank_tasks
  rw [scoreTasksE_agrees raw_tasks strategy today h]
  cases scoreTasks raw_tasks strategy today with
  | error e => rfl
  | ok rs => rfl

/-- On every input whose normalized non-null ids are hashable, the
embedding that keeps the builder's raise point returns, and returns the
stably sorted scored tasks. -/
theorem rank_orderingE_hashable (raw_tasks : List RawEntry) (strategy : String) (today : Int)
    (hs : Recognized strategy) (hh : HashableIds (normalise_tasks raw_tasks)) :
    ∃ pre out,
      scoreTasksE raw_tasks strategy today = .ok pre ∧
      rank_tasksE raw_tasks strategy today = .ok out ∧
      out.Perm pre ∧
      List.Pairwise (fun a b => keyLe (sort_key today a) (sort_key today b)) out ∧
      (∀ k, out.filter (fun t => decide (sort_key today t = k)) =
        pre.filter (fun t => decide (sort_key today t = k))) := by
  obtain ⟨pre, out, h1, h2, h3, h4, h5, -⟩ :=
    rank_ordering_recognized raw_tasks strategy today hs
  refine ⟨pre, out, ?_, ?_, h3, h4, h5⟩
  · rw [scoreTasksE_agrees raw_tasks strategy today hh, h1]
    rfl
  · rw [rank_tasksE_agrees raw_tasks strategy today hh, h2]
    rfl

/-- C1: the claim asserts that `rank_tasks` returns the sorted scored
tasks for every input task list and recognized strategy, and the spec
permits only payload and strategy errors to escape the core
("degrade, don't fail"); but a task record whose `id` field holds a list
makes `rank_tasks` raise `TypeError: unhashable type: 'list'` when
`_build_graph` hashes the id at `graph.setdefault(t.id, [])`
(scoring.py line 88), aborting the whole ranking call: on `c1Example`,
the one-record input whose id is the list `[1]`, the embedding that
keeps the raise point errors instead of returning a ranking. -/
theorem C1_unhashable_id_crash :
    rank_tasksE c1Example "smart_balance" 0 =
      .error (.typeError "unhashable type: 'list'") := by
  with_unfolding_all decide
